import Mathlib

/-!
Verification of the WiMOD HCI serial protocol engine (src/wimod.c): the
SLIP byte-stuffing codec, the CRC-CCITT frame check sequence, the
incremental receive state machine, the dispatcher registry and the
request/response synchronizers, shallowly embedded as Lean functions over
lists of bytes (Nat values below 256).
-/

namespace Wimod

/-- SLIP_END delimiter (0300 octal = 0xC0). -/
def SLIP_END : Nat := 0xC0

/-- SLIP_ESC escape byte (0333 octal = 0xDB). -/
def SLIP_ESC : Nat := 0xDB

/-- SLIP_ESC_END escaped code for END (0334 octal = 0xDC). -/
def SLIP_ESC_END : Nat := 0xDC

/-- SLIP_ESC_ESC escaped code for ESC (0335 octal = 0xDD). -/
def SLIP_ESC_ESC : Nat := 0xDD

/-- WIMOD_HCI_PAYLOAD_MAX from wimod.c. -/
def WIMOD_HCI_PAYLOAD_MAX : Nat := 300

/-- WIMOD_HCI_PACKET_MAX, the capacity of the rx_buf accumulation buffer:
`1 + (2 + WIMOD_HCI_PAYLOAD_MAX + 2) * 2 + 1` (= 610). -/
def WIMOD_HCI_PACKET_MAX : Nat := 1 + (2 + WIMOD_HCI_PAYLOAD_MAX + 2) * 2 + 1

/-- One entry of the crc_ccitt lookup table from linux/crc-ccitt.h (the
reflected CRC-CCITT polynomial 0x8408): process one byte LSB first. -/
def crc_ccitt_tab (b : Nat) : Nat :=
  (List.range 8).foldl (fun t _ => if t % 2 = 1 then (t / 2) ^^^ 0x8408 else t / 2) b

/-- crc_ccitt_byte from linux/crc-ccitt.h:
`(crc >> 8) ^ crc_ccitt_table[(crc ^ c) & 0xff]`. -/
def crc_ccitt_byte (crc c : Nat) : Nat :=
  (crc / 256) ^^^ crc_ccitt_tab ((crc ^^^ c) % 256)

/-- crc_ccitt from linux/crc-ccitt.h: fold crc_ccitt_byte over a byte list. -/
def crc_ccitt (crc : Nat) (data : List Nat) : Nat :=
  data.foldl crc_ccitt_byte crc

/-- Byte stream written on the wire for one byte by slip_send_data: a byte
equal to SLIP_END or SLIP_ESC is sent as the SLIP_ESC escape byte followed
by the corresponding escaped code, any other byte is sent verbatim. -/
def slip_esc_code (b : Nat) : List Nat :=
  if b = SLIP_END then [SLIP_ESC, SLIP_ESC_END]
  else if b = SLIP_ESC then [SLIP_ESC, SLIP_ESC_ESC]
  else [b]

/-- Byte stream written by slip_send_data for a buffer: the concatenation of
the per-byte streams (the C code batches the serdev writes between escaped
bytes, with the same concatenated output). -/
def slip_send_data (buf : List Nat) : List Nat :=
  buf.flatMap slip_esc_code

/-- Byte stream written by wimod_hci_send: an initial SLIP_END, the escaped
dst_id, msg_id, payload and little-endian complemented CRC-CCITT checksum,
and a trailing SLIP_END. -/
def wimod_hci_send (dst_id msg_id : Nat) (payload : List Nat) : List Nat :=
  let crc := (crc_ccitt 0xffff (dst_id :: msg_id :: payload)) ^^^ 0xffff
  [SLIP_END] ++ slip_send_data [dst_id] ++ slip_send_data [msg_id] ++
    slip_send_data payload ++ slip_send_data [crc % 256, crc / 256] ++ [SLIP_END]

/-- The raw frame bytes wimod_hci_send protects with the trailing checksum:
dst_id, msg_id, payload, and the two little-endian bytes of the
complemented CRC-CCITT over dst_id ++ msg_id ++ payload. -/
def wimod_hci_frame (dst_id msg_id : Nat) (payload : List Nat) : List Nat :=
  let crc := (crc_ccitt 0xffff (dst_id :: msg_id :: payload)) ^^^ 0xffff
  dst_id :: msg_id :: payload ++ [crc % 256, crc / 256]

/-- Link receive state of a wimod_device: the accumulation buffer rx_buf
(as the list of its first rx_len bytes) and the escape-pending flag rx_esc. -/
structure WimodRx where
  rx_buf : List Nat
  rx_esc : Bool
  deriving DecidableEq, Repr

/-- Result of one wimod_receive_buf call: the updated link receive state,
the packets handed to wimod_process_packet (each the rx_buf snapshot at a
frame boundary), and the returned count of consumed input bytes. -/
structure RxResult where
  rx : WimodRx
  packets : List (List Nat)
  len : Nat
  deriving DecidableEq, Repr

/-- Loop body of wimod_receive_buf, fuel-indexed for structural recursion
(the fuel is a termination device only: data.length - i strictly decreases
at every iteration, so any fuel above that never runs out).  buf/esc are
rx_buf/rx_esc, data the unconsumed input, i the scan index, len the count
of consumed bytes, pkts the packets handed to wimod_process_packet so far. -/
def receiveGo : Nat → List Nat → Bool → List Nat → Nat → Nat → List (List Nat) → RxResult
  | 0, buf, esc, _, _, len, pkts => ⟨⟨buf, esc⟩, pkts, len⟩
  | fuel + 1, buf, esc, data, i, len, pkts =>
    if i < min data.length (WIMOD_HCI_PACKET_MAX - buf.length) then
      if esc then
        receiveGo fuel
          (if data.getD i 0 = SLIP_ESC_END then buf ++ [SLIP_END]
            else if data.getD i 0 = SLIP_ESC_ESC then buf ++ [SLIP_ESC]
            else buf)
          false (data.drop (i + 1)) 0 (len + i + 1) pkts
      else if data.getD i 0 ≠ SLIP_END ∧ data.getD i 0 ≠ SLIP_ESC then
        receiveGo fuel buf esc data (i + 1) len pkts
      else if data.getD i 0 = SLIP_END ∧ (buf ++ data.take i).length > 0 then
        receiveGo fuel [] false (data.drop (i + 1)) 0 (len + i + 1)
          (pkts ++ [buf ++ data.take i])
      else if data.getD i 0 = SLIP_ESC then
        receiveGo fuel (buf ++ data.take i) true (data.drop (i + 1)) 0 (len + i + 1) pkts
      else
        receiveGo fuel (buf ++ data.take i) false (data.drop (i + 1)) 0 (len + i + 1) pkts
    else ⟨⟨buf, esc⟩, pkts, len⟩

/-- wimod_receive_buf from wimod.c: feed one chunk of raw link bytes
through the streaming SLIP decoder. -/
def wimod_receive_buf (rx : WimodRx) (data : List Nat) : RxResult :=
  receiveGo (data.length + 1) rx.rx_buf rx.rx_esc data 0 0 []

/-- A wimod_hci_packet_dispatcher entry: the (dst_id, msg_id) key and a tag
standing for the identity of the dispatchee callback and its context. -/
structure PacketDispatcher where
  dst_id : Nat
  msg_id : Nat
  tag : Nat
  deriving DecidableEq, Repr

/-- wimod_process_packet from wimod.c: discard packets shorter than 4 bytes
or with a complemented-CRC residual other than 0x0f47, otherwise scan the
dispatcher list in registration order and invoke the first entry whose
(dst_id, msg_id) matches the first two packet bytes, passing it the packet
data and length len - 2; the returned value is the invocation performed
(entry, data, len - 2), or none when the packet is discarded or unmatched. -/
def wimod_process_packet (dispatchers : List PacketDispatcher) (data : List Nat) :
    Option (PacketDispatcher × List Nat × Nat) :=
  if data.length < 4 then none
  else if (crc_ccitt 0xffff data) ^^^ 0xffff ≠ 0x0f47 then none
  else
    match dispatchers.find? (fun e =>
        e.dst_id = data.getD 0 0 ∧ e.msg_id = data.getD 1 0) with
    | some e => some (e, data, data.length - 2)
    | none => none

/-- State of a wimod_hci_packet_completion waiter: whether the completion
has fired (completion_done), the payload slot (none while unset, modelling
the kzalloc as succeeding) and payload_len. -/
structure PacketCompletion where
  comp_done : Bool
  payload : Option (List Nat)
  payload_len : Nat
  deriving DecidableEq, Repr

/-- wimod_hci_packet_dispatch_completion from wimod.c: a no-op when the
completion is already done, otherwise record payload_len = len - 2, copy
len - 2 bytes starting at data + 2 into the payload slot, and complete. -/
def wimod_hci_packet_dispatch_completion (st : PacketCompletion)
    (data : List Nat) (len : Nat) : PacketCompletion :=
  if st.comp_done then st
  else ⟨true, some ((data.drop 2).take (len - 2)), len - 2⟩

/-- DEVMGMT_ID from wimod.c. -/
def DEVMGMT_ID : Nat := 0x01

/-- DEVMGMT_MSG_PING_RSP from wimod.c. -/
def DEVMGMT_MSG_PING_RSP : Nat := 0x02

/-- DEVMGMT_MSG_GET_DEVICE_INFO_RSP from wimod.c. -/
def DEVMGMT_MSG_GET_DEVICE_INFO_RSP : Nat := 0x04

/-- Linux EINVAL errno value. -/
def EINVAL : Int := 22

/-- Linux ETIMEDOUT errno value. -/
def ETIMEDOUT : Int := 110

/-- wimod_hci_devmgmt_status from wimod.c: 0 for DEVMGMT_STATUS_OK,
-EINVAL otherwise. -/
def wimod_hci_devmgmt_status (status : Nat) : Int :=
  if status = 0 then 0 else -EINVAL

/-- wimod_hci_add_dispatcher from wimod.c: list_add_tail_rcu appends the
entry at the tail of the registry. -/
def wimod_hci_add_dispatcher (reg : List PacketDispatcher)
    (entry : PacketDispatcher) : List PacketDispatcher :=
  reg ++ [entry]

/-- wimod_hci_remove_dispatcher from wimod.c: list_del_rcu unlinks the
entry's node (modelled as erasing the first occurrence of the entry). -/
def wimod_hci_remove_dispatcher (reg : List PacketDispatcher)
    (entry : PacketDispatcher) : List PacketDispatcher :=
  reg.erase entry

/-- wimod_hci_ping from wimod.c, with its environment made explicit:
send_ret is the return of wimod_hci_send's writes and response the outcome
of wait_for_completion_timeout (none for a timeout, some payload when the
dispatched completion stored that payload).  Returns the call's return
value together with the dispatcher registry as left at return. -/
def wimod_hci_ping (reg : List PacketDispatcher) (entry : PacketDispatcher)
    (send_ret : Int) (response : Option (List Nat)) : Int × List PacketDispatcher :=
  if send_ret ≠ 0 then
    (send_ret, wimod_hci_remove_dispatcher (wimod_hci_add_dispatcher reg entry) entry)
  else
    match response with
    | none =>
      (-ETIMEDOUT, wimod_hci_remove_dispatcher (wimod_hci_add_dispatcher reg entry) entry)
    | some payload =>
      if payload.length < 1 then
        (-EINVAL, wimod_hci_remove_dispatcher (wimod_hci_add_dispatcher reg entry) entry)
      else
        (wimod_hci_devmgmt_status (payload.getD 0 0),
          wimod_hci_remove_dispatcher (wimod_hci_add_dispatcher reg entry) entry)

/-- wimod_hci_get_device_info from wimod.c, with its environment made
explicit as for wimod_hci_ping; has_buf tells whether the caller passed a
non-null buffer, and the third component is the info bytes memcpy'd into
it (none when nothing was copied). -/
def wimod_hci_get_device_info (reg : List PacketDispatcher)
    (entry : PacketDispatcher) (send_ret : Int) (response : Option (List Nat))
    (has_buf : Bool) : Int × List PacketDispatcher × Option (List Nat) :=
  if send_ret ≠ 0 then
    (send_ret, wimod_hci_remove_dispatcher (wimod_hci_add_dispatcher reg entry) entry, none)
  else
    match response with
    | none =>
      (-ETIMEDOUT, wimod_hci_remove_dispatcher (wimod_hci_add_dispatcher reg entry) entry,
        none)
    | some payload =>
      if payload.length < 1 then
        (-EINVAL, wimod_hci_remove_dispatcher (wimod_hci_add_dispatcher reg entry) entry,
          none)
      else if wimod_hci_devmgmt_status (payload.getD 0 0) ≠ 0 then
        (wimod_hci_devmgmt_status (payload.getD 0 0),
          wimod_hci_remove_dispatcher (wimod_hci_add_dispatcher reg entry) entry, none)
      else if payload.length < 10 then
        (-EINVAL, wimod_hci_remove_dispatcher (wimod_hci_add_dispatcher reg entry) entry,
          none)
      else
        (0, wimod_hci_remove_dispatcher (wimod_hci_add_dispatcher reg entry) entry,
          if has_buf then some ((payload.drop 1).take (min (payload.length - 1) 9))
          else none)

/-- Feed a sequence of chunks to wimod_receive_buf, as the serdev core
does: the unconsumed suffix of each call (bytes past the returned consumed
count) is re-presented, prepended to the next chunk.  Returns the final
link receive state, the still-pending unconsumed bytes, and all packets
handed to wimod_process_packet. -/
def feedChunks (rx : WimodRx) (pending : List Nat) :
    List (List Nat) → WimodRx × List Nat × List (List Nat)
  | [] => (rx, pending, [])
  | c :: chunks =>
    let r := wimod_receive_buf rx (pending ++ c)
    let rest := feedChunks r.rx ((pending ++ c).drop r.len) chunks
    (rest.1, rest.2.1, r.packets ++ rest.2.2)

/-- Feed a sequence of chunks to wimod_receive_buf passing each chunk once
and ignoring the returned consumed count (so unconsumed bytes are simply
dropped).  Returns the final link receive state and all packets handed to
wimod_process_packet. -/
def feedOnce (rx : WimodRx) : List (List Nat) → WimodRx × List (List Nat)
  | [] => (rx, [])
  | c :: chunks =>
    let r := wimod_receive_buf rx c
    let rest := feedOnce r.rx chunks
    (rest.1, r.packets ++ rest.2)

/-! ### Arithmetic facts: xor distributes over division and remainder by powers of two -/

theorem xor_div_two_pow (a b n : Nat) : (a ^^^ b) / 2 ^ n = a / 2 ^ n ^^^ b / 2 ^ n := by
  rw [← Nat.shiftRight_eq_div_pow, ← Nat.shiftRight_eq_div_pow, ← Nat.shiftRight_eq_div_pow]
  refine Nat.eq_of_testBit_eq fun i => ?_
  simp [Nat.testBit_shiftRight, Nat.testBit_xor]

theorem xor_mod_two_pow (a b n : Nat) : (a ^^^ b) % 2 ^ n = a % 2 ^ n ^^^ b % 2 ^ n := by
  refine Nat.eq_of_testBit_eq fun i => ?_
  simp only [Nat.testBit_mod_two_pow, Nat.testBit_xor]
  cases h : decide (i < n) <;> simp

theorem xor_div_256 (a b : Nat) : (a ^^^ b) / 256 = a / 256 ^^^ b / 256 := by
  have h := xor_div_two_pow a b 8
  norm_num at h
  exact h

theorem xor_mod_256 (a b : Nat) : (a ^^^ b) % 256 = a % 256 ^^^ b % 256 := by
  have h := xor_mod_two_pow a b 8
  norm_num at h
  exact h

theorem xor_div_2 (a b : Nat) : (a ^^^ b) / 2 = a / 2 ^^^ b / 2 := by
  have h := xor_div_two_pow a b 1
  rw [pow_one] at h
  exact h

theorem xor_mod_2 (a b : Nat) : (a ^^^ b) % 2 = a % 2 ^^^ b % 2 := by
  have h := xor_mod_two_pow a b 1
  rw [pow_one] at h
  exact h

theorem xor_left_comm (a b c : Nat) : a ^^^ (b ^^^ c) = b ^^^ (a ^^^ c) := by
  rw [← Nat.xor_assoc, Nat.xor_comm a b, Nat.xor_assoc]

/-! ### The crc_ccitt table is linear over xor, and bounded by 2^16 -/

/-- One LSB-first step of the reflected CRC-CCITT polynomial division. -/
def tstep (t : Nat) : Nat := if t % 2 = 1 then (t / 2) ^^^ 0x8408 else t / 2

theorem crc_ccitt_tab_eq (b : Nat) :
    crc_ccitt_tab b = tstep (tstep (tstep (tstep (tstep (tstep (tstep (tstep b))))))) := rfl

theorem tstep_xor (a b : Nat) : tstep (a ^^^ b) = tstep a ^^^ tstep b := by
  unfold tstep
  rw [xor_mod_2 a b, xor_div_2 a b]
  rcases Nat.mod_two_eq_zero_or_one a with ha | ha <;>
    rcases Nat.mod_two_eq_zero_or_one b with hb | hb <;>
      simp [ha, hb, Nat.xor_assoc, Nat.xor_comm, xor_left_comm]

theorem crc_ccitt_tab_xor (a b : Nat) :
    crc_ccitt_tab (a ^^^ b) = crc_ccitt_tab a ^^^ crc_ccitt_tab b := by
  simp only [crc_ccitt_tab_eq, tstep_xor]

theorem crc_ccitt_tab_zero : crc_ccitt_tab 0 = 0 := by decide

theorem tstep_lt {t : Nat} (h : t < 2 ^ 16) : tstep t < 2 ^ 16 := by
  unfold tstep
  have h2 : t / 2 < 2 ^ 16 := lt_of_le_of_lt (Nat.div_le_self t 2) h
  split
  · exact Nat.xor_lt_two_pow h2 (by norm_num)
  · exact h2

theorem crc_ccitt_tab_lt {b : Nat} (h : b < 2 ^ 16) : crc_ccitt_tab b < 2 ^ 16 := by
  rw [crc_ccitt_tab_eq]
  exact tstep_lt (tstep_lt (tstep_lt (tstep_lt (tstep_lt (tstep_lt (tstep_lt (tstep_lt h)))))))

theorem crc_ccitt_byte_lt {c : Nat} (b : Nat) (h : c < 2 ^ 16) :
    crc_ccitt_byte c b < 2 ^ 16 := by
  unfold crc_ccitt_byte
  refine Nat.xor_lt_two_pow (lt_of_le_of_lt (Nat.div_le_self c 256) h) (crc_ccitt_tab_lt ?_)
  calc (c ^^^ b) % 256 < 256 := Nat.mod_lt _ (by norm_num)
    _ < 2 ^ 16 := by norm_num

theorem crc_ccitt_lt {c : Nat} (l : List Nat) (h : c < 2 ^ 16) : crc_ccitt c l < 2 ^ 16 := by
  induction l generalizing c with
  | nil => exact h
  | cons b l ih => exact ih (crc_ccitt_byte_lt b h)

theorem crc_ccitt_byte_xor (c d x y : Nat) :
    crc_ccitt_byte (c ^^^ d) (x ^^^ y) = crc_ccitt_byte c x ^^^ crc_ccitt_byte d y := by
  unfold crc_ccitt_byte
  have hidx : ((c ^^^ d) ^^^ (x ^^^ y)) = (c ^^^ x) ^^^ (d ^^^ y) := by
    simp [Nat.xor_assoc, Nat.xor_comm, xor_left_comm]
  rw [hidx, xor_div_256, xor_mod_256, crc_ccitt_tab_xor]
  simp [Nat.xor_assoc, Nat.xor_comm, xor_left_comm]

theorem crc_ccitt_append (c : Nat) (l1 l2 : List Nat) :
    crc_ccitt c (l1 ++ l2) = crc_ccitt (crc_ccitt c l1) l2 := by
  unfold crc_ccitt
  rw [List.foldl_append]

theorem crc_ccitt_zipWith (l1 : List Nat) :
    ∀ l2 c d, l1.length = l2.length →
      crc_ccitt (c ^^^ d) (List.zipWith (· ^^^ ·) l1 l2) =
        crc_ccitt c l1 ^^^ crc_ccitt d l2 := by
  induction l1 with
  | nil =>
    intro l2 c d h
    cases l2 with
    | nil => rfl
    | cons b t => simp at h
  | cons a t1 ih =>
    intro l2 c d h
    cases l2 with
    | nil => simp at h
    | cons b t2 =>
      simp only [List.zipWith_cons_cons]
      show crc_ccitt (crc_ccitt_byte (c ^^^ d) (a ^^^ b)) _ = _
      rw [crc_ccitt_byte_xor]
      exact ih t2 _ _ (by simpa using h)

/-! ### The fixed CRC residual 0xf0b8 / 0x0f47 -/

theorem crc_residual {R : Nat} (hR : R < 2 ^ 16) :
    crc_ccitt R [(R ^^^ 0xffff) % 256, (R ^^^ 0xffff) / 256] = 0xf0b8 := by
  show crc_ccitt_byte (crc_ccitt_byte R ((R ^^^ 0xffff) % 256)) ((R ^^^ 0xffff) / 256) = 0xf0b8
  have h1 : crc_ccitt_byte R ((R ^^^ 0xffff) % 256) = R / 256 ^^^ 3960 := by
    unfold crc_ccitt_byte
    have hidx : (R ^^^ (R ^^^ 0xffff) % 256) % 256 = 255 := by
      rw [xor_mod_256 R ((R ^^^ 0xffff) % 256)]
      have hmm : (R ^^^ 0xffff) % 256 % 256 = (R ^^^ 0xffff) % 256 := by omega
      rw [hmm, xor_mod_256 R 0xffff]
      show R % 256 ^^^ (R % 256 ^^^ 0xffff % 256) = 255
      norm_num [Nat.xor_cancel_left]
    rw [hidx]
    norm_num [show crc_ccitt_tab 255 = 3960 from by decide]
  have h2 : (R ^^^ 0xffff) / 256 = R / 256 ^^^ 255 := by
    rw [xor_div_256]
  rw [h1, h2]
  unfold crc_ccitt_byte
  have ha : (R / 256 ^^^ 3960) / 256 = 15 := by
    rw [xor_div_256]
    have h0 : R / 256 / 256 = 0 := by omega
    rw [h0]
    decide
  have hb : ((R / 256 ^^^ 3960) ^^^ (R / 256 ^^^ 255)) % 256 = 135 := by
    have hc : (R / 256 ^^^ 3960) ^^^ (R / 256 ^^^ 255) = 3960 ^^^ 255 := by
      simp [Nat.xor_assoc, Nat.xor_comm, xor_left_comm, Nat.xor_cancel_left]
    rw [hc]
    decide
  rw [ha, hb]
  decide

/-- A frame built by appending the little-endian complemented CRC always
reduces, CRC-checked whole, to the fixed residual 0x0f47. -/
theorem wimod_residual (m : List Nat) :
    crc_ccitt 0xffff (m ++ [((crc_ccitt 0xffff m) ^^^ 0xffff) % 256,
      ((crc_ccitt 0xffff m) ^^^ 0xffff) / 256]) ^^^ 0xffff = 0x0f47 := by
  rw [crc_ccitt_append, crc_residual (crc_ccitt_lt m (by norm_num))]
  decide

/-! ### Single-bit errors break the residual -/

set_option maxRecDepth 4096 in
theorem crc_ccitt_tab_small_eq_zero : ∀ x < 256, crc_ccitt_tab x < 256 → x = 0 := by decide

theorem crc_ccitt_byte_zero_ne {c : Nat} (hc : c < 2 ^ 16) (h : c ≠ 0) :
    crc_ccitt_byte c 0 ≠ 0 := by
  unfold crc_ccitt_byte
  intro h0
  rw [Nat.xor_zero, Nat.xor_eq_zero] at h0
  have h256 : crc_ccitt_tab (c % 256) < 256 := by
    rw [← h0]
    omega
  have hx := crc_ccitt_tab_small_eq_zero (c % 256) (Nat.mod_lt _ (by norm_num)) h256
  rw [hx, crc_ccitt_tab_zero] at h0
  omega

theorem crc_ccitt_zero_run_ne {c : Nat} (hc : c < 2 ^ 16) (h : c ≠ 0) (k : Nat) :
    crc_ccitt c (List.replicate k 0) ≠ 0 := by
  induction k generalizing c with
  | zero => exact h
  | succ k ih =>
    rw [List.replicate_succ]
    show crc_ccitt (crc_ccitt_byte c 0) (List.replicate k 0) ≠ 0
    exact ih (crc_ccitt_byte_lt 0 hc) (crc_ccitt_byte_zero_ne hc h)

theorem crc_ccitt_tab_pow_ne : ∀ j < 8, crc_ccitt_tab (2 ^ j) ≠ 0 := by decide

theorem crc_ccitt_err_ne (k r j : Nat) (hj : j < 8) :
    crc_ccitt 0 (List.replicate k 0 ++ 2 ^ j :: List.replicate r 0) ≠ 0 := by
  have hz : crc_ccitt 0 (List.replicate k 0) = 0 := by
    have := crc_ccitt_zero_run_ne (c := 1)
    induction k with
    | zero => rfl
    | succ k ih =>
      rw [List.replicate_succ]
      show crc_ccitt (crc_ccitt_byte 0 0) (List.replicate k 0) = 0
      have h00 : crc_ccitt_byte 0 0 = 0 := by decide
      rw [h00]
      exact ih
  rw [crc_ccitt_append, hz]
  show crc_ccitt (crc_ccitt_byte 0 (2 ^ j)) (List.replicate r 0) ≠ 0
  have hpow : 2 ^ j < 256 := by
    calc 2 ^ j < 2 ^ 8 := Nat.pow_lt_pow_right (by norm_num) hj
      _ = 256 := by norm_num
  have hbyte : crc_ccitt_byte 0 (2 ^ j) = crc_ccitt_tab (2 ^ j) := by
    unfold crc_ccitt_byte
    simp [Nat.mod_eq_of_lt hpow]
  rw [hbyte]
  refine crc_ccitt_zero_run_ne (crc_ccitt_tab_lt ?_) (crc_ccitt_tab_pow_ne j hj) r
  calc 2 ^ j < 256 := hpow
    _ < 2 ^ 16 := by norm_num

theorem zipWith_xor_self_zero (l : List Nat) :
    List.zipWith (· ^^^ ·) l (List.replicate l.length 0) = l := by
  induction l with
  | nil => rfl
  | cons a t ih => simp [List.replicate_succ, ih]

theorem zipWith_xor_flip (l : List Nat) :
    ∀ k, k < l.length → ∀ v,
      List.zipWith (· ^^^ ·) l
          (List.replicate k 0 ++ v :: List.replicate (l.length - k - 1) 0) =
        l.set k (l.getD k 0 ^^^ v) := by
  induction l with
  | nil =>
    intro k hk
    simp at hk
  | cons a t ih =>
    intro k hk v
    cases k with
    | zero =>
      simp only [List.replicate, List.nil_append, List.zipWith_cons_cons, List.set,
        List.length_cons, Nat.sub_zero, Nat.add_sub_cancel, List.getD_cons_zero]
      rw [zipWith_xor_self_zero t]
    | succ k =>
      simp only [List.replicate_succ, List.cons_append, List.zipWith_cons_cons,
        Nat.xor_zero, List.set, List.length_cons, Nat.add_sub_add_right,
        List.getD_cons_succ]
      rw [ih k (by simpa using hk) v]

/-- Flipping any single bit of a byte sequence whose whole-sequence
residual is 0x0f47 yields a residual different from 0x0f47. -/
theorem wimod_residual_flip (F : List Nat) (k j : Nat) (hk : k < F.length) (hj : j < 8)
    (hres : crc_ccitt 0xffff F ^^^ 0xffff = 0x0f47) :
    crc_ccitt 0xffff (F.set k (F.getD k 0 ^^^ 2 ^ j)) ^^^ 0xffff ≠ 0x0f47 := by
  have hlen : F.length = (List.replicate k 0 ++ 2 ^ j :: List.replicate (F.length - k - 1) 0).length := by
    simp
    omega
  rw [← zipWith_xor_flip F k hk (2 ^ j)]
  have hsplit : crc_ccitt 0xffff
      (List.zipWith (· ^^^ ·) F (List.replicate k 0 ++ 2 ^ j :: List.replicate (F.length - k - 1) 0)) =
      crc_ccitt 0xffff F ^^^ crc_ccitt 0 (List.replicate k 0 ++ 2 ^ j :: List.replicate (F.length - k - 1) 0) := by
    have h := crc_ccitt_zipWith F (List.replicate k 0 ++ 2 ^ j :: List.replicate (F.length - k - 1) 0)
      0xffff 0 hlen
    rwa [Nat.xor_zero] at h
  rw [hsplit]
  intro hbad
  have hcan : crc_ccitt 0xffff F ^^^ crc_ccitt 0 (List.replicate k 0 ++ 2 ^ j :: List.replicate (F.length - k - 1) 0) =
      crc_ccitt 0xffff F := by
    have h1 := hbad.trans hres.symm
    have h2 := congrArg (· ^^^ 0xffff) h1
    simpa [Nat.xor_cancel_right] using h2
  apply crc_ccitt_err_ne k (F.length - k - 1) j hj
  have h3 := congrArg (crc_ccitt 0xffff F ^^^ ·) hcan.symm
  have h4 : 0 = crc_ccitt 0 (List.replicate k 0 ++ 2 ^ j :: List.replicate (F.length - k - 1) 0) := by
    simpa [Nat.xor_cancel_left] using h3
  exact h4.symm

/-! ### A byte-at-a-time reference decoder for the receive path -/

/-- One byte of the SLIP decode state machine of wimod_receive_buf, acting
on the link receive state paired with the packets handed on so far. -/
def slipStep (s : WimodRx × List (List Nat)) (b : Nat) : WimodRx × List (List Nat) :=
  if s.1.rx_esc then
    if b = SLIP_ESC_END then (⟨s.1.rx_buf ++ [SLIP_END], false⟩, s.2)
    else if b = SLIP_ESC_ESC then (⟨s.1.rx_buf ++ [SLIP_ESC], false⟩, s.2)
    else (⟨s.1.rx_buf, false⟩, s.2)
  else if b = SLIP_END then
    if s.1.rx_buf.length > 0 then (⟨[], false⟩, s.2 ++ [s.1.rx_buf])
    else (s.1, s.2)
  else if b = SLIP_ESC then (⟨s.1.rx_buf, true⟩, s.2)
  else (⟨s.1.rx_buf ++ [b], false⟩, s.2)

/-- Run the byte-at-a-time decoder over a byte list. -/
def slipRun (s : WimodRx × List (List Nat)) (l : List Nat) : WimodRx × List (List Nat) :=
  l.foldl slipStep s

/-- The number of bytes a single wimod_receive_buf call consumes from its
input (capacity permitting): everything up to and including the last
boundary byte — a byte read in escape-pending state, a SLIP_END or a
SLIP_ESC; trailing literal bytes are scanned but not consumed. -/
def consumedLen : Bool → List Nat → Nat
  | _, [] => 0
  | true, _ :: rest => consumedLen false rest + 1
  | false, b :: rest =>
    if b = SLIP_END then consumedLen false rest + 1
    else if b = SLIP_ESC then consumedLen true rest + 1
    else
      match consumedLen false rest with
      | 0 => 0
      | k + 1 => k + 2

theorem slipRun_append (s : WimodRx × List (List Nat)) (l1 l2 : List Nat) :
    slipRun s (l1 ++ l2) = slipRun (slipRun s l1) l2 := by
  unfold slipRun
  rw [List.foldl_append]

theorem consumedLen_le (l : List Nat) : ∀ esc, consumedLen esc l ≤ l.length := by
  induction l with
  | nil => intro esc; cases esc <;> simp [consumedLen]
  | cons b rest ih =>
    intro esc
    have h1 := ih false
    have h2 := ih true
    cases esc with
    | true =>
      simp only [consumedLen, List.length_cons]
      omega
    | false =>
      simp only [consumedLen, List.length_cons]
      split
      · omega
      · split
        · omega
        · rcases hv : consumedLen false rest with _ | k
          · simp only [hv]
            omega
          · simp only [hv]
            omega

theorem consumedLen_zero_of_lit (l : List Nat)
    (h : ∀ b ∈ l, b ≠ SLIP_END ∧ b ≠ SLIP_ESC) : consumedLen false l = 0 := by
  induction l with
  | nil => rfl
  | cons b rest ih =>
    have hb := h b (List.mem_cons_self b rest)
    simp only [consumedLen, if_neg hb.1, if_neg hb.2]
    rw [ih (fun x hx => h x (List.mem_cons_of_mem b hx))]

theorem lit_of_consumedLen_zero (l : List Nat) (h : consumedLen false l = 0) :
    ∀ b ∈ l, b ≠ SLIP_END ∧ b ≠ SLIP_ESC := by
  induction l with
  | nil => simp
  | cons b rest ih =>
    intro x hx
    simp only [consumedLen] at h
    by_cases hE : b = SLIP_END
    · rw [if_pos hE] at h
      omega
    · by_cases hS : b = SLIP_ESC
      · rw [if_neg hE, if_pos hS] at h
        omega
      · rw [if_neg hE, if_neg hS] at h
        rcases List.mem_cons.mp hx with hx1 | hx2
        · exact hx1 ▸ ⟨hE, hS⟩
        · refine ih ?_ x hx2
          cases hv : consumedLen false rest with
          | zero => rfl
          | succ k =>
            simp only [hv] at h
            omega

theorem slipRun_lit (buf : List Nat) (pkts : List (List Nat)) (l : List Nat)
    (h : ∀ b ∈ l, b ≠ SLIP_END ∧ b ≠ SLIP_ESC) :
    slipRun (⟨buf, false⟩, pkts) l = (⟨buf ++ l, false⟩, pkts) := by
  induction l generalizing buf with
  | nil => simp [slipRun]
  | cons b rest ih =>
    have hb := h b (List.mem_cons_self b rest)
    show slipRun (slipStep (⟨buf, false⟩, pkts) b) rest = _
    rw [show slipStep (⟨buf, false⟩, pkts) b = (⟨buf ++ [b], false⟩, pkts) from by
      simp [slipStep, hb.1, hb.2]]
    rw [ih (buf ++ [b]) (fun x hx => h x (List.mem_cons_of_mem b hx))]
    simp

theorem consumedLen_lit_cons (p : Nat) (hp1 : p ≠ SLIP_END) (hp2 : p ≠ SLIP_ESC)
    (l : List Nat) (k : Nat) (hk : consumedLen false l = k + 1) :
    consumedLen false (p :: l) = k + 2 := by
  simp only [consumedLen, if_neg hp1, if_neg hp2, hk]

theorem consumedLen_lit_end (pre : List Nat)
    (h : ∀ b ∈ pre, b ≠ SLIP_END ∧ b ≠ SLIP_ESC) (rest : List Nat) :
    consumedLen false (pre ++ SLIP_END :: rest) =
      pre.length + 1 + consumedLen false rest := by
  induction pre with
  | nil =>
    simp only [List.nil_append, consumedLen, List.length_nil]
    rw [if_pos trivial]
    omega
  | cons p pre' ih =>
    have hp := h p (List.mem_cons_self p pre')
    have ih' := ih (fun x hx => h x (List.mem_cons_of_mem p hx))
    rw [List.cons_append]
    rcases hv : consumedLen false (pre' ++ SLIP_END :: rest) with _ | k
    · rw [ih'] at hv
      omega
    · rw [consumedLen_lit_cons p hp.1 hp.2 _ k hv]
      rw [ih'] at hv
      simp only [List.length_cons]
      omega

theorem consumedLen_lit_esc (pre : List Nat)
    (h : ∀ b ∈ pre, b ≠ SLIP_END ∧ b ≠ SLIP_ESC) (rest : List Nat) :
    consumedLen false (pre ++ SLIP_ESC :: rest) =
      pre.length + 1 + consumedLen true rest := by
  induction pre with
  | nil =>
    simp only [List.nil_append, consumedLen, List.length_nil]
    rw [if_pos trivial, if_neg (show ¬SLIP_ESC = SLIP_END from by decide)]
    omega
  | cons p pre' ih =>
    have hp := h p (List.mem_cons_self p pre')
    have ih' := ih (fun x hx => h x (List.mem_cons_of_mem p hx))
    rw [List.cons_append]
    rcases hv : consumedLen false (pre' ++ SLIP_ESC :: rest) with _ | k
    · rw [ih'] at hv
      omega
    · rw [consumedLen_lit_cons p hp.1 hp.2 _ k hv]
      rw [ih'] at hv
      simp only [List.length_cons]
      omega

theorem slipRun_cons (s : WimodRx × List (List Nat)) (b : Nat) (l : List Nat) :
    slipRun s (b :: l) = slipRun (slipStep s b) l := rfl

theorem slipStep_end_emit (buf : List Nat) (pkts : List (List Nat)) (h : buf.length > 0) :
    slipStep (⟨buf, false⟩, pkts) SLIP_END = (⟨[], false⟩, pkts ++ [buf]) := by
  simp only [slipStep]
  rw [if_neg (Bool.false_ne_true), if_pos trivial, if_pos h]

theorem slipStep_end_drop (pkts : List (List Nat)) :
    slipStep (⟨[], false⟩, pkts) SLIP_END = (⟨[], false⟩, pkts) := by
  simp only [slipStep]
  rw [if_neg (Bool.false_ne_true), if_pos trivial,
    if_neg (show ¬([] : List Nat).length > 0 from by decide)]

theorem slipStep_escb (buf : List Nat) (pkts : List (List Nat)) :
    slipStep (⟨buf, false⟩, pkts) SLIP_ESC = (⟨buf, true⟩, pkts) := by
  simp only [slipStep]
  rw [if_neg (Bool.false_ne_true), if_neg (show ¬SLIP_ESC = SLIP_END from by decide),
    if_pos trivial]

/-- Characterization of the wimod_receive_buf loop, capacity permitting:
from scan position pre.length (with pre the already-scanned, all-literal
prefix), the loop consumes exactly the consumedLen-long prefix of the
input, its effect on the receive state and emitted packets is that of the
byte-at-a-time reference decoder on that prefix, and the consumed count is
added to the running len. -/
theorem receiveGo_eq (fuel : Nat) : ∀ (buf : List Nat) (esc : Bool) (pre rest : List Nat)
    (len : Nat) (pkts : List (List Nat)),
    (∀ b ∈ pre, b ≠ SLIP_END ∧ b ≠ SLIP_ESC) →
    (esc = true → pre = []) →
    buf.length + (pre ++ rest).length ≤ WIMOD_HCI_PACKET_MAX →
    (pre ++ rest).length - pre.length < fuel →
    receiveGo fuel buf esc (pre ++ rest) pre.length len pkts =
      ⟨(slipRun (⟨buf, esc⟩, pkts) ((pre ++ rest).take (consumedLen esc (pre ++ rest)))).1,
        (slipRun (⟨buf, esc⟩, pkts) ((pre ++ rest).take (consumedLen esc (pre ++ rest)))).2,
        len + consumedLen esc (pre ++ rest)⟩ := by
  induction fuel with
  | zero =>
    intro buf esc pre rest len pkts hpre hesc hcap hfuel
    omega
  | succ f ih =>
    intro buf esc pre rest len pkts hpre hesc hcap hfuel
    cases rest with
    | nil =>
      have hn : consumedLen esc (pre ++ []) = 0 := by
        rw [List.append_nil]
        cases esc
        · exact consumedLen_zero_of_lit pre hpre
        · rw [hesc rfl]
          rfl
      rw [hn]
      have hguard : ¬ pre.length < min (pre ++ []).length (WIMOD_HCI_PACKET_MAX - buf.length) := by
        have h1 : min (pre ++ []).length (WIMOD_HCI_PACKET_MAX - buf.length) ≤ pre.length := by
          refine le_trans (Nat.min_le_left _ _) ?_
          simp
        omega
      simp only [receiveGo]
      rw [if_neg hguard]
      simp [slipRun]
    | cons r rest' =>
      have hlen : (pre ++ r :: rest').length = pre.length + (rest'.length + 1) := by simp
      rw [hlen] at hcap hfuel
      have hguard : pre.length < min (pre ++ r :: rest').length (WIMOD_HCI_PACKET_MAX - buf.length) := by
        rw [Nat.lt_min, hlen]
        omega
      have hget : (pre ++ r :: rest').getD pre.length 0 = r := by
        rw [List.getD_append_right pre (r :: rest') 0 pre.length le_rfl]
        simp
      have htake : (pre ++ r :: rest').take pre.length = pre := List.take_left pre (r :: rest')
      have hdrop : (pre ++ r :: rest').drop (pre.length + 1) = rest' := by
        rw [show pre ++ r :: rest' = (pre ++ [r]) ++ rest' from by simp]
        exact List.drop_left' (by simp)
      simp only [receiveGo]
      rw [if_pos hguard]
      cases esc with
      | true =>
        have hpre0 : pre = [] := hesc rfl
        subst hpre0
        simp only [List.nil_append, List.length_nil] at hget htake hdrop hcap hfuel ⊢
        rw [if_pos trivial]
        simp only [hget, hdrop, List.drop_succ_cons]
        have hihpre : ∀ b ∈ ([] : List Nat), b ≠ SLIP_END ∧ b ≠ SLIP_ESC := by simp
        have hihcap : (if r = SLIP_ESC_END then buf ++ [SLIP_END]
            else if r = SLIP_ESC_ESC then buf ++ [SLIP_ESC] else buf).length +
            (([] : List Nat) ++ rest').length ≤ WIMOD_HCI_PACKET_MAX := by
          have hb1 : (if r = SLIP_ESC_END then buf ++ [SLIP_END]
              else if r = SLIP_ESC_ESC then buf ++ [SLIP_ESC] else buf).length ≤
              buf.length + 1 := by
            split
            · simp
            · split
              · simp
              · simp
          simp only [List.nil_append]
          omega
        have hihfuel : (([] : List Nat) ++ rest').length - ([] : List Nat).length < f := by
          simp only [List.nil_append, List.length_nil]
          omega
        have happ := ih _ false [] rest' (len + 0 + 1) pkts hihpre (by simp) hihcap hihfuel
        simp only [List.nil_append, List.length_nil] at happ
        rw [happ]
        have hn : consumedLen true (r :: rest') = consumedLen false rest' + 1 := by
          simp only [consumedLen]
        rw [hn, List.take_succ_cons, slipRun_cons]
        have hstep : slipStep (⟨buf, true⟩, pkts) r =
            (⟨if r = SLIP_ESC_END then buf ++ [SLIP_END]
              else if r = SLIP_ESC_ESC then buf ++ [SLIP_ESC] else buf, false⟩, pkts) := by
          by_cases h1 : r = SLIP_ESC_END
          · simp [slipStep, h1, SLIP_ESC_END, SLIP_ESC_ESC]
          · by_cases h2 : r = SLIP_ESC_ESC
            · simp [slipStep, h1, h2, SLIP_ESC_END, SLIP_ESC_ESC]
            · simp [slipStep, h1, h2]
        rw [hstep]
        simp only [RxResult.mk.injEq]
        refine ⟨trivial, trivial, by omega⟩
      | false =>
        rw [if_neg (Bool.false_ne_true)]
        rw [hget, htake, hdrop]
        by_cases hrE : r = SLIP_END
        · subst hrE
          rw [if_neg (show ¬(SLIP_END ≠ SLIP_END ∧ SLIP_END ≠ SLIP_ESC) from
            fun h => h.1 rfl)]
          have hn := consumedLen_lit_end pre hpre rest'
          rw [hn]
          have htk : (pre ++ SLIP_END :: rest').take (pre.length + 1 + consumedLen false rest') =
              pre ++ SLIP_END :: rest'.take (consumedLen false rest') := by
            rw [show pre.length + 1 + consumedLen false rest' =
              pre.length + (consumedLen false rest' + 1) from by omega]
            rw [List.take_append, List.take_succ_cons]
          rw [htk]
          have hrunlit := slipRun_lit buf pkts pre hpre
          by_cases hne : (buf ++ pre).length > 0
          · rw [if_pos ⟨rfl, hne⟩]
            have happ := ih [] false [] rest' (len + pre.length + 1) (pkts ++ [buf ++ pre])
              (by simp) (by simp) (by simp; omega) (by simp; omega)
            simp only [List.nil_append, List.length_nil] at happ
            rw [happ]
            rw [slipRun_append, hrunlit, slipRun_cons]
            rw [slipStep_end_emit (buf ++ pre) pkts hne]
            simp only [RxResult.mk.injEq]
            refine ⟨trivial, trivial, by omega⟩
          · rw [if_neg (fun h => hne h.2)]
            rw [if_neg (show ¬SLIP_END = SLIP_ESC from by decide)]
            have hb : buf = [] := by
              have := List.length_eq_zero.mp (show (buf ++ pre).length = 0 from by omega)
              exact List.append_eq_nil.mp this |>.1
            have hp : pre = [] := by
              have := List.length_eq_zero.mp (show (buf ++ pre).length = 0 from by omega)
              exact List.append_eq_nil.mp this |>.2
            subst hb
            subst hp
            simp only [List.nil_append, List.length_nil, List.append_nil]
            have happ := ih [] false [] rest' (len + 0 + 1) pkts
              (by simp) (by simp) (by simp; omega) (by simp; omega)
            simp only [List.nil_append, List.length_nil] at happ
            rw [happ]
            rw [slipRun_cons]
            rw [slipStep_end_drop pkts]
            simp only [RxResult.mk.injEq]
            refine ⟨trivial, trivial, by omega⟩
        · by_cases hrS : r = SLIP_ESC
          · subst hrS
            rw [if_neg (show ¬(SLIP_ESC ≠ SLIP_END ∧ SLIP_ESC ≠ SLIP_ESC) from
              fun h => h.2 rfl)]
            rw [if_neg (fun h => hrE h.1), if_pos rfl]
            have hn := consumedLen_lit_esc pre hpre rest'
            rw [hn]
            have htk : (pre ++ SLIP_ESC :: rest').take (pre.length + 1 + consumedLen true rest') =
                pre ++ SLIP_ESC :: rest'.take (consumedLen true rest') := by
              rw [show pre.length + 1 + consumedLen true rest' =
                pre.length + (consumedLen true rest' + 1) from by omega]
              rw [List.take_append, List.take_succ_cons]
            rw [htk]
            have happ := ih (buf ++ pre) true [] rest' (len + pre.length + 1) pkts
              (by simp) (by simp) (by simp; omega) (by simp; omega)
            simp only [List.nil_append, List.length_nil] at happ
            rw [happ]
            rw [slipRun_append, slipRun_lit buf pkts pre hpre, slipRun_cons]
            rw [slipStep_escb (buf ++ pre) pkts]
            simp only [RxResult.mk.injEq]
            refine ⟨trivial, trivial, by omega⟩
          · rw [if_pos ⟨hrE, hrS⟩]
            have hihpre : ∀ b ∈ pre ++ [r], b ≠ SLIP_END ∧ b ≠ SLIP_ESC := by
              intro b hb
              rcases List.mem_append.mp hb with h1 | h2
              · exact hpre b h1
              · rcases List.mem_singleton.mp h2 with rfl
                exact ⟨hrE, hrS⟩
            have happ := ih buf false (pre ++ [r]) rest' len pkts hihpre (by simp)
              (by simp; omega) (by simp; omega)
            simp only [List.append_assoc, List.singleton_append, List.length_append,
              List.length_singleton] at happ
            exact happ

/-- Single-call characterization of wimod_receive_buf when the input fits
into the free buffer capacity: the call consumes exactly the
consumedLen-long prefix, and state and emitted packets are those of the
byte-at-a-time reference decoder over that prefix. -/
theorem wimod_receive_buf_eq (rx : WimodRx) (data : List Nat)
    (hcap : rx.rx_buf.length + data.length ≤ WIMOD_HCI_PACKET_MAX) :
    wimod_receive_buf rx data =
      ⟨(slipRun (rx, []) (data.take (consumedLen rx.rx_esc data))).1,
        (slipRun (rx, []) (data.take (consumedLen rx.rx_esc data))).2,
        consumedLen rx.rx_esc data⟩ := by
  obtain ⟨buf, esc⟩ := rx
  have h := receiveGo_eq (data.length + 1) buf esc [] data 0 [] (by simp)
    (fun _ => rfl) (by simpa using hcap) (by simp)
  simpa [wimod_receive_buf] using h

theorem slipStep_esc_end (buf : List Nat) (pkts : List (List Nat)) :
    slipStep (⟨buf, true⟩, pkts) SLIP_ESC_END = (⟨buf ++ [SLIP_END], false⟩, pkts) := by
  simp [slipStep]

theorem slipStep_esc_esc (buf : List Nat) (pkts : List (List Nat)) :
    slipStep (⟨buf, true⟩, pkts) SLIP_ESC_ESC = (⟨buf ++ [SLIP_ESC], false⟩, pkts) := by
  simp [slipStep, SLIP_ESC_END, SLIP_ESC_ESC]

theorem slipStep_lit (buf : List Nat) (pkts : List (List Nat)) (b : Nat)
    (h1 : b ≠ SLIP_END) (h2 : b ≠ SLIP_ESC) :
    slipStep (⟨buf, false⟩, pkts) b = (⟨buf ++ [b], false⟩, pkts) := by
  simp [slipStep, h1, h2]

theorem slip_send_data_nil : slip_send_data [] = [] := rfl

theorem slip_send_data_cons (x : Nat) (xs : List Nat) :
    slip_send_data (x :: xs) = slip_esc_code x ++ slip_send_data xs := by
  simp [slip_send_data]

theorem slip_send_data_append (xs ys : List Nat) :
    slip_send_data (xs ++ ys) = slip_send_data xs ++ slip_send_data ys := by
  simp [slip_send_data]

/-- The byte stream of wimod_hci_send is the leading delimiter, the escaped
frame, and the trailing delimiter. -/
theorem wimod_hci_send_eq (dst_id msg_id : Nat) (payload : List Nat) :
    wimod_hci_send dst_id msg_id payload =
      SLIP_END :: slip_send_data (wimod_hci_frame dst_id msg_id payload) ++ [SLIP_END] := by
  simp only [wimod_hci_send, wimod_hci_frame]
  rw [show (dst_id :: msg_id :: payload ++
      [(crc_ccitt 0xffff (dst_id :: msg_id :: payload) ^^^ 0xffff) % 256,
        (crc_ccitt 0xffff (dst_id :: msg_id :: payload) ^^^ 0xffff) / 256]) =
      [dst_id] ++ ([msg_id] ++ (payload ++
        [(crc_ccitt 0xffff (dst_id :: msg_id :: payload) ^^^ 0xffff) % 256,
          (crc_ccitt 0xffff (dst_id :: msg_id :: payload) ^^^ 0xffff) / 256])) from by simp]
  rw [slip_send_data_append, slip_send_data_append, slip_send_data_append]
  simp

theorem slip_esc_code_length (b : Nat) : (slip_esc_code b).length ≤ 2 := by
  unfold slip_esc_code
  split
  · simp
  · split
    · simp
    · simp

theorem slip_send_data_length (xs : List Nat) :
    (slip_send_data xs).length ≤ 2 * xs.length := by
  induction xs with
  | nil => simp [slip_send_data]
  | cons x xs ih =>
    rw [slip_send_data_cons]
    have h := slip_esc_code_length x
    simp only [List.length_append, List.length_cons]
    omega

theorem consumedLen_end_cons (rest : List Nat) :
    consumedLen false (SLIP_END :: rest) = consumedLen false rest + 1 := by
  have h := consumedLen_lit_end [] (by simp) rest
  simp at h
  omega

theorem consumedLen_esc_cons (rest : List Nat) :
    consumedLen false (SLIP_ESC :: rest) = consumedLen true rest + 1 := by
  have h := consumedLen_lit_esc [] (by simp) rest
  simp at h
  omega

theorem consumedLen_esc_state (b : Nat) (rest : List Nat) :
    consumedLen true (b :: rest) = consumedLen false rest + 1 := by
  simp only [consumedLen]

/-- A fully escaped byte sequence followed by a SLIP_END is consumed whole
(together with anything a later boundary reaches). -/
theorem consumedLen_enc (xs : List Nat) : ∀ rest,
    consumedLen false (slip_send_data xs ++ SLIP_END :: rest) =
      (slip_send_data xs).length + 1 + consumedLen false rest := by
  induction xs with
  | nil =>
    intro rest
    rw [slip_send_data_nil]
    simp only [List.nil_append, List.length_nil]
    rw [consumedLen_end_cons]
    omega
  | cons x xs ih =>
    intro rest
    rw [slip_send_data_cons]
    by_cases hE : x = SLIP_END
    · subst hE
      rw [show slip_esc_code SLIP_END = [SLIP_ESC, SLIP_ESC_END] from by
        simp [slip_esc_code]]
      simp only [List.cons_append, List.nil_append]
      rw [consumedLen_esc_cons, consumedLen_esc_state, ih rest]
      simp only [List.length_append, List.length_cons, List.length_nil]
      omega
    · by_cases hS : x = SLIP_ESC
      · subst hS
        rw [show slip_esc_code SLIP_ESC = [SLIP_ESC, SLIP_ESC_ESC] from by
          simp [slip_esc_code, SLIP_ESC, SLIP_END]]
        simp only [List.cons_append, List.nil_append]
        rw [consumedLen_esc_cons, consumedLen_esc_state, ih rest]
        simp only [List.length_append, List.length_cons, List.length_nil]
        omega
      · rw [show slip_esc_code x = [x] from by simp [slip_esc_code, hE, hS]]
        simp only [List.cons_append, List.nil_append]
        rcases hv : consumedLen false (slip_send_data xs ++ SLIP_END :: rest) with _ | k
        · rw [ih rest] at hv
          omega
        · rw [consumedLen_lit_cons x hE hS _ k hv]
          rw [ih rest] at hv
          simp only [List.length_append, List.length_cons, List.length_nil]
          omega

/-- Decoding the escaped frame followed by the closing SLIP_END appends the
original frame bytes to the buffer and emits it as one packet. -/
theorem slipRun_enc (xs : List Nat) : ∀ (buf : List Nat) (pkts : List (List Nat)),
    buf ++ xs ≠ [] →
    slipRun (⟨buf, false⟩, pkts) (slip_send_data xs ++ [SLIP_END]) =
      (⟨[], false⟩, pkts ++ [buf ++ xs]) := by
  induction xs with
  | nil =>
    intro buf pkts h
    rw [slip_send_data_nil]
    simp only [List.nil_append, List.append_nil] at *
    rw [show slipRun (⟨buf, false⟩, pkts) [SLIP_END] =
      slipStep (⟨buf, false⟩, pkts) SLIP_END from rfl]
    rw [slipStep_end_emit buf pkts (by
      cases buf with
      | nil => exact absurd rfl h
      | cons a t => simp)]
  | cons x xs ih =>
    intro buf pkts h
    rw [slip_send_data_cons]
    by_cases hE : x = SLIP_END
    · subst hE
      rw [show slip_esc_code SLIP_END = [SLIP_ESC, SLIP_ESC_END] from by
        simp [slip_esc_code]]
      simp only [List.cons_append, List.nil_append, List.append_assoc]
      rw [slipRun_cons, slipStep_escb, slipRun_cons, slipStep_esc_end]
      have := ih (buf ++ [SLIP_END]) pkts (by simp)
      rw [this]
      simp
    · by_cases hS : x = SLIP_ESC
      · subst hS
        rw [show slip_esc_code SLIP_ESC = [SLIP_ESC, SLIP_ESC_ESC] from by
          simp [slip_esc_code, SLIP_ESC, SLIP_END]]
        simp only [List.cons_append, List.nil_append, List.append_assoc]
        rw [slipRun_cons, slipStep_escb, slipRun_cons, slipStep_esc_esc]
        have := ih (buf ++ [SLIP_ESC]) pkts (by simp)
        rw [this]
        simp
      · rw [show slip_esc_code x = [x] from by simp [slip_esc_code, hE, hS]]
        simp only [List.cons_append, List.nil_append]
        rw [slipRun_cons, slipStep_lit buf pkts x hE hS]
        have := ih (buf ++ [x]) pkts (by simp)
        rw [this]
        simp

theorem wimod_hci_frame_length (dst_id msg_id : Nat) (payload : List Nat) :
    (wimod_hci_frame dst_id msg_id payload).length = payload.length + 4 := by
  simp [wimod_hci_frame]

theorem wimod_hci_frame_ne_nil (dst_id msg_id : Nat) (payload : List Nat) :
    wimod_hci_frame dst_id msg_id payload ≠ [] := by
  simp [wimod_hci_frame]

theorem wimod_hci_send_length (dst_id msg_id : Nat) (payload : List Nat)
    (hlen : payload.length ≤ WIMOD_HCI_PAYLOAD_MAX) :
    (wimod_hci_send dst_id msg_id payload).length ≤ WIMOD_HCI_PACKET_MAX := by
  rw [wimod_hci_send_eq]
  have h1 := slip_send_data_length (wimod_hci_frame dst_id msg_id payload)
  have h2 := wimod_hci_frame_length dst_id msg_id payload
  have h3 : WIMOD_HCI_PAYLOAD_MAX = 300 := rfl
  have h4 : WIMOD_HCI_PACKET_MAX = 610 := rfl
  simp only [List.length_cons, List.length_append, List.length_singleton,
    List.length_nil]
  omega

theorem consumedLen_send (dst_id msg_id : Nat) (payload : List Nat) :
    consumedLen false (wimod_hci_send dst_id msg_id payload) =
      (wimod_hci_send dst_id msg_id payload).length := by
  rw [wimod_hci_send_eq, List.cons_append, consumedLen_end_cons, consumedLen_enc]
  simp [consumedLen]

/-- Decoding the full encoder output from the empty link receive state
hands exactly the original frame bytes (header, payload and checksum) to
the frame-completion path, consumes the whole stream, and leaves the
receive state empty. -/
theorem receive_send_eq (dst_id msg_id : Nat) (payload : List Nat)
    (hlen : payload.length ≤ WIMOD_HCI_PAYLOAD_MAX) :
    wimod_receive_buf ⟨[], false⟩ (wimod_hci_send dst_id msg_id payload) =
      ⟨⟨[], false⟩, [wimod_hci_frame dst_id msg_id payload],
        (wimod_hci_send dst_id msg_id payload).length⟩ := by
  have hcap : (WimodRx.mk [] false).rx_buf.length +
      (wimod_hci_send dst_id msg_id payload).length ≤ WIMOD_HCI_PACKET_MAX := by
    have := wimod_hci_send_length dst_id msg_id payload hlen
    simpa using this
  rw [wimod_receive_buf_eq _ _ hcap]
  show (⟨_, _, consumedLen false _⟩ : RxResult) = _
  rw [consumedLen_send, List.take_length]
  rw [wimod_hci_send_eq, List.cons_append, slipRun_cons, slipStep_end_drop]
  rw [slipRun_enc (wimod_hci_frame dst_id msg_id payload) [] []
    (by simpa using wimod_hci_frame_ne_nil dst_id msg_id payload)]
  simp [wimod_hci_send_eq]

/-! ### Resumability of the decoder across chunk boundaries -/

theorem esc_ne_end : SLIP_ESC ≠ SLIP_END := by decide

theorem esc_esc_ne_esc_end : SLIP_ESC_ESC ≠ SLIP_ESC_END := by decide

/-- The escape-pending flag after one byte of scanning. -/
def escStep (e : Bool) (b : Nat) : Bool :=
  if e then false
  else if b = SLIP_END then false
  else if b = SLIP_ESC then true
  else false

/-- The escape-pending flag after scanning a byte list. -/
def escScan (e : Bool) (l : List Nat) : Bool :=
  l.foldl escStep e

theorem escScan_cons (e : Bool) (b : Nat) (l : List Nat) :
    escScan e (b :: l) = escScan (escStep e b) l := rfl

theorem slipStep_esc_eq (s : WimodRx × List (List Nat)) (b : Nat) :
    (slipStep s b).1.rx_esc = escStep s.1.rx_esc b := by
  rcases s with ⟨⟨buf, esc⟩, pkts⟩
  cases esc with
  | true =>
    by_cases h1 : b = SLIP_ESC_END
    · simp [slipStep, escStep, h1]
    · by_cases h2 : b = SLIP_ESC_ESC
      · simp [slipStep, escStep, h1, h2, esc_esc_ne_esc_end]
      · simp [slipStep, escStep, h1, h2]
  | false =>
    by_cases hE : b = SLIP_END
    · by_cases hp : buf.length > 0
      · simp [slipStep, escStep, hE, hp]
      · simp [slipStep, escStep, hE, hp]
    · by_cases hS : b = SLIP_ESC
      · simp [slipStep, escStep, hE, hS, esc_ne_end]
      · simp [slipStep, escStep, hE, hS]

theorem slipRun_esc_eq (l : List Nat) : ∀ s : WimodRx × List (List Nat),
    (slipRun s l).1.rx_esc = escScan s.1.rx_esc l := by
  induction l with
  | nil => intro s; rfl
  | cons b l ih =>
    intro s
    rw [slipRun_cons, escScan_cons, ih (slipStep s b), slipStep_esc_eq]

theorem escScan_lit_cons (b : Nat) (h1 : b ≠ SLIP_END) (h2 : b ≠ SLIP_ESC) (l : List Nat) :
    escScan false (b :: l) = escScan false l := by
  rw [escScan_cons]
  simp [escStep, h1, h2]

/-- Decomposition of consumedLen over an append: the whole consumes the
first list's consumable prefix, then continues from the resulting escape
state over the leftover literals and the second list. -/
theorem consumedLen_append (X : List Nat) : ∀ (e : Bool) (Y : List Nat),
    consumedLen e (X ++ Y) =
      consumedLen e X +
        consumedLen (escScan e (X.take (consumedLen e X)))
          (X.drop (consumedLen e X) ++ Y) := by
  induction X with
  | nil =>
    intro e Y
    simp [consumedLen, escScan]
  | cons b X ih =>
    intro e Y
    cases e with
    | true =>
      rw [List.cons_append, consumedLen_esc_state, consumedLen_esc_state, ih false Y]
      rw [List.take_succ_cons, List.drop_succ_cons, escScan_cons]
      rw [show escStep true b = false from by simp [escStep]]
      omega
    | false =>
      by_cases hE : b = SLIP_END
      · subst hE
        rw [List.cons_append, consumedLen_end_cons, consumedLen_end_cons, ih false Y]
        rw [List.take_succ_cons, List.drop_succ_cons, escScan_cons]
        rw [show escStep false SLIP_END = false from by simp [escStep]]
        omega
      · by_cases hS : b = SLIP_ESC
        · subst hS
          rw [List.cons_append, consumedLen_esc_cons, consumedLen_esc_cons, ih true Y]
          rw [List.take_succ_cons, List.drop_succ_cons, escScan_cons]
          rw [show escStep false SLIP_ESC = true from by simp [escStep, SLIP_ESC, SLIP_END]]
          omega
        · rcases hv : consumedLen false X with _ | k
          · rw [show consumedLen false (b :: X) = 0 from by
              simp only [consumedLen, if_neg hE, if_neg hS, hv]]
            simp only [List.take_zero, List.drop_zero, Nat.zero_add]
            rw [show escScan false ([] : List Nat) = false from rfl]
          · have hbX : consumedLen false (b :: X) = k + 2 :=
              consumedLen_lit_cons b hE hS X k hv
            rw [hbX]
            have hw := ih false Y
            rw [hv] at hw
            have hXY : consumedLen false (b :: (X ++ Y)) =
                (k + consumedLen (escScan false (X.take (k + 1)))
                  (X.drop (k + 1) ++ Y)) + 2 :=
              consumedLen_lit_cons b hE hS (X ++ Y) _ (by omega)
            rw [List.cons_append, hXY]
            rw [show (k + 2 : Nat) = (k + 1) + 1 from rfl]
            rw [List.take_succ_cons, List.drop_succ_cons]
            rw [escScan_lit_cons b hE hS]
            omega

/-- What a call leaves unconsumed is all-literal, and is empty whenever the
escape flag is pending after the consumed prefix. -/
theorem consumedLen_leftover (X : List Nat) : ∀ e : Bool,
    (∀ b ∈ X.drop (consumedLen e X), b ≠ SLIP_END ∧ b ≠ SLIP_ESC) ∧
      (escScan e (X.take (consumedLen e X)) = true → X.drop (consumedLen e X) = []) := by
  induction X with
  | nil =>
    intro e
    constructor
    · simp
    · intro _
      simp
  | cons b X ih =>
    intro e
    cases e with
    | true =>
      rw [consumedLen_esc_state, List.take_succ_cons, List.drop_succ_cons, escScan_cons]
      rw [show escStep true b = false from by simp [escStep]]
      exact ih false
    | false =>
      by_cases hE : b = SLIP_END
      · subst hE
        rw [consumedLen_end_cons, List.take_succ_cons, List.drop_succ_cons, escScan_cons]
        rw [show escStep false SLIP_END = false from by simp [escStep]]
        exact ih false
      · by_cases hS : b = SLIP_ESC
        · subst hS
          rw [consumedLen_esc_cons, List.take_succ_cons, List.drop_succ_cons, escScan_cons]
          rw [show escStep false SLIP_ESC = true from by simp [escStep, SLIP_ESC, SLIP_END]]
          exact ih true
        · rcases hv : consumedLen false X with _ | k
          · rw [show consumedLen false (b :: X) = 0 from by
              simp only [consumedLen, if_neg hE, if_neg hS, hv]]
            constructor
            · intro x hx
              rcases List.mem_cons.mp hx with rfl | hx2
              · exact ⟨hE, hS⟩
              · exact lit_of_consumedLen_zero X hv x hx2
            · intro hcontra
              simp [escScan] at hcontra
          · rw [consumedLen_lit_cons b hE hS _ k hv]
            rw [List.take_succ_cons, List.drop_succ_cons, escScan_lit_cons b hE hS]
            have := ih false
            rw [hv] at this
            exact this

theorem slipStep_pkts (st : WimodRx) (p : List (List Nat)) (b : Nat) :
    slipStep (st, p) b = ((slipStep (st, []) b).1, p ++ (slipStep (st, []) b).2) := by
  rcases st with ⟨buf, esc⟩
  cases esc with
  | true =>
    by_cases h1 : b = SLIP_ESC_END
    · simp [slipStep, h1]
    · by_cases h2 : b = SLIP_ESC_ESC
      · simp [slipStep, h1, h2, esc_esc_ne_esc_end]
      · simp [slipStep, h1, h2]
  | false =>
    by_cases hE : b = SLIP_END
    · by_cases hp : buf.length > 0
      · simp [slipStep, hE, hp]
      · simp [slipStep, hE, hp]
    · by_cases hS : b = SLIP_ESC
      · simp [slipStep, hE, hS, esc_ne_end]
      · simp [slipStep, hE, hS]

theorem slipRun_pkts (l : List Nat) : ∀ (st : WimodRx) (p : List (List Nat)),
    slipRun (st, p) l = ((slipRun (st, []) l).1, p ++ (slipRun (st, []) l).2) := by
  induction l with
  | nil => intro st p; simp [slipRun]
  | cons b l ih =>
    intro st p
    rw [slipRun_cons, slipStep_pkts]
    rw [ih (slipStep (st, []) b).1 (p ++ (slipStep (st, []) b).2)]
    rw [show slipRun (st, []) (b :: l) = slipRun (slipStep (st, []) b) l from rfl]
    rw [show slipStep (st, []) b = ((slipStep (st, []) b).1, (slipStep (st, []) b).2) from rfl]
    rw [ih (slipStep (st, []) b).1 (slipStep (st, []) b).2]
    simp

theorem slipStep_buf_le (s : WimodRx × List (List Nat)) (b : Nat) :
    (slipStep s b).1.rx_buf.length ≤ s.1.rx_buf.length + 1 := by
  rcases s with ⟨⟨buf, esc⟩, pkts⟩
  cases esc with
  | true =>
    by_cases h1 : b = SLIP_ESC_END
    · simp [slipStep, h1]
    · by_cases h2 : b = SLIP_ESC_ESC
      · simp [slipStep, h1, h2, esc_esc_ne_esc_end]
      · simp [slipStep, h1, h2]
  | false =>
    by_cases hE : b = SLIP_END
    · by_cases hp : buf.length > 0
      · simp [slipStep, hE, hp]
      · simp [slipStep, hE, hp]
    · by_cases hS : b = SLIP_ESC
      · simp [slipStep, hE, hS, esc_ne_end]
      · simp [slipStep, hE, hS]

theorem slipRun_buf_le (l : List Nat) : ∀ s : WimodRx × List (List Nat),
    (slipRun s l).1.rx_buf.length ≤ s.1.rx_buf.length + l.length := by
  induction l with
  | nil => intro s; simp [slipRun]
  | cons b l ih =>
    intro s
    rw [slipRun_cons]
    have h1 := ih (slipStep s b)
    have h2 := slipStep_buf_le s b
    simp only [List.length_cons]
    omega

theorem slipRun_pkts_eta (l : List Nat) (s : WimodRx × List (List Nat)) :
    slipRun s l = ((slipRun (s.1, []) l).1, s.2 ++ (slipRun (s.1, []) l).2) := by
  rcases s with ⟨st, p⟩
  exact slipRun_pkts l st p

/-- Feeding chunks with re-presentation of unconsumed bytes is equivalent
to the byte-at-a-time decoder over the consumable prefix of the whole
stream: same final state, same leftover, same emitted packets. -/
theorem feedChunks_eq (chunks : List (List Nat)) : ∀ (st : WimodRx) (pend : List Nat),
    (∀ b ∈ pend, b ≠ SLIP_END ∧ b ≠ SLIP_ESC) →
    (st.rx_esc = true → pend = []) →
    st.rx_buf.length + pend.length + chunks.flatten.length ≤ WIMOD_HCI_PACKET_MAX →
    feedChunks st pend chunks =
      ((slipRun (st, []) ((pend ++ chunks.flatten).take
          (consumedLen st.rx_esc (pend ++ chunks.flatten)))).1,
        (pend ++ chunks.flatten).drop (consumedLen st.rx_esc (pend ++ chunks.flatten)),
        (slipRun (st, []) ((pend ++ chunks.flatten).take
          (consumedLen st.rx_esc (pend ++ chunks.flatten)))).2) := by
  induction chunks with
  | nil =>
    intro st pend hlit hesc hcap
    have hn : consumedLen st.rx_esc (pend ++ List.flatten []) = 0 := by
      rw [List.flatten_nil, List.append_nil]
      cases he : st.rx_esc
      · exact consumedLen_zero_of_lit pend hlit
      · rw [hesc he]
        rfl
    rw [hn]
    simp [feedChunks, slipRun]
  | cons C chunks ih =>
    intro st pend hlit hesc hcap
    rw [List.flatten_cons]
    have hflat : pend ++ (C ++ chunks.flatten) = (pend ++ C) ++ chunks.flatten := by
      rw [List.append_assoc]
    rw [hflat]
    have hcap1 : st.rx_buf.length + (pend ++ C).length ≤ WIMOD_HCI_PACKET_MAX := by
      rw [List.flatten_cons] at hcap
      simp only [List.length_append] at hcap ⊢
      omega
    have hrecv := wimod_receive_buf_eq st (pend ++ C) hcap1
    show (let r := wimod_receive_buf st (pend ++ C)
      let rest := feedChunks r.rx ((pend ++ C).drop r.len) chunks
      (rest.1, rest.2.1, r.packets ++ rest.2.2)) = _
    rw [hrecv]
    simp only []
    -- abbreviations
    have hleft := consumedLen_leftover (pend ++ C) st.rx_esc
    have hesc2 : (slipRun (st, []) ((pend ++ C).take
        (consumedLen st.rx_esc (pend ++ C)))).1.rx_esc =
        escScan st.rx_esc ((pend ++ C).take (consumedLen st.rx_esc (pend ++ C))) := by
      rw [slipRun_esc_eq]
    have hn1le := consumedLen_le (pend ++ C) st.rx_esc
    have hcap2 : (slipRun (st, []) ((pend ++ C).take
        (consumedLen st.rx_esc (pend ++ C)))).1.rx_buf.length +
        ((pend ++ C).drop (consumedLen st.rx_esc (pend ++ C))).length +
        chunks.flatten.length ≤ WIMOD_HCI_PACKET_MAX := by
      have hb := slipRun_buf_le ((pend ++ C).take (consumedLen st.rx_esc (pend ++ C)))
        (st, [])
      have ht := List.length_take (consumedLen st.rx_esc (pend ++ C)) (pend ++ C)
      have hd : ((pend ++ C).drop (consumedLen st.rx_esc (pend ++ C))).length =
          (pend ++ C).length - consumedLen st.rx_esc (pend ++ C) := by
        simp
      rw [List.flatten_cons] at hcap
      simp only [List.length_append] at hcap hb ht hd ⊢
      omega
    rw [ih _ _ (hleft.1) (by
      intro h2
      exact hleft.2 (by rw [← hesc2]; exact h2)) hcap2]
    -- now align both sides
    rw [hesc2]
    have hsplit := consumedLen_append (pend ++ C) st.rx_esc chunks.flatten
    rw [hsplit]
    -- take decomposition
    have htake : ((pend ++ C) ++ chunks.flatten).take
        (consumedLen st.rx_esc (pend ++ C) +
          consumedLen (escScan st.rx_esc ((pend ++ C).take (consumedLen st.rx_esc (pend ++ C))))
            ((pend ++ C).drop (consumedLen st.rx_esc (pend ++ C)) ++ chunks.flatten)) =
        (pend ++ C).take (consumedLen st.rx_esc (pend ++ C)) ++
          ((pend ++ C).drop (consumedLen st.rx_esc (pend ++ C)) ++ chunks.flatten).take
            (consumedLen (escScan st.rx_esc ((pend ++ C).take (consumedLen st.rx_esc (pend ++ C))))
              ((pend ++ C).drop (consumedLen st.rx_esc (pend ++ C)) ++ chunks.flatten)) := by
      rw [List.take_add]
      congr 1
      · rw [List.take_append_eq_append_take,
          show consumedLen st.rx_esc (pend ++ C) - (pend ++ C).length = 0 from by omega]
        simp
      · congr 1
        rw [List.drop_append_eq_append_drop,
          show consumedLen st.rx_esc (pend ++ C) - (pend ++ C).length = 0 from by omega]
        simp
    have hdrop : ((pend ++ C) ++ chunks.flatten).drop
        (consumedLen st.rx_esc (pend ++ C) +
          consumedLen (escScan st.rx_esc ((pend ++ C).take (consumedLen st.rx_esc (pend ++ C))))
            ((pend ++ C).drop (consumedLen st.rx_esc (pend ++ C)) ++ chunks.flatten)) =
        ((pend ++ C).drop (consumedLen st.rx_esc (pend ++ C)) ++ chunks.flatten).drop
          (consumedLen (escScan st.rx_esc ((pend ++ C).take (consumedLen st.rx_esc (pend ++ C))))
            ((pend ++ C).drop (consumedLen st.rx_esc (pend ++ C)) ++ chunks.flatten)) := by
      rw [← List.drop_drop]
      congr 1
      rw [List.drop_append_eq_append_drop,
        show consumedLen st.rx_esc (pend ++ C) - (pend ++ C).length = 0 from by omega]
      simp
    rw [htake, hdrop]
    rw [slipRun_append]
    rw [show slipRun (st, [])
        ((pend ++ C).take (consumedLen st.rx_esc (pend ++ C))) =
      ((slipRun (st, []) ((pend ++ C).take (consumedLen st.rx_esc (pend ++ C)))).1,
        (slipRun (st, []) ((pend ++ C).take (consumedLen st.rx_esc (pend ++ C)))).2)
      from rfl]
    rw [slipRun_pkts]
    rw [slipRun_pkts_eta (List.take
        (consumedLen (escScan st.rx_esc (List.take (consumedLen st.rx_esc (pend ++ C)) (pend ++ C)))
          (List.drop (consumedLen st.rx_esc (pend ++ C)) (pend ++ C) ++ chunks.flatten))
        (List.drop (consumedLen st.rx_esc (pend ++ C)) (pend ++ C) ++ chunks.flatten))
      (slipRun (st, []) (List.take (consumedLen st.rx_esc (pend ++ C)) (pend ++ C)))]
    simp

/-- Feeding any chunking of a full encoded frame, with unconsumed bytes
re-presented, decodes the same single frame as feeding the stream whole. -/
theorem feedChunks_send (dst_id msg_id : Nat) (payload : List Nat)
    (chunks : List (List Nat))
    (hlen : payload.length ≤ WIMOD_HCI_PAYLOAD_MAX)
    (hjoin : chunks.flatten = wimod_hci_send dst_id msg_id payload) :
    feedChunks ⟨[], false⟩ [] chunks =
      (⟨[], false⟩, [], [wimod_hci_frame dst_id msg_id payload]) := by
  have hcap : (WimodRx.mk [] false).rx_buf.length + ([] : List Nat).length +
      chunks.flatten.length ≤ WIMOD_HCI_PACKET_MAX := by
    rw [hjoin]
    have := wimod_hci_send_length dst_id msg_id payload hlen
    simpa using this
  rw [feedChunks_eq chunks ⟨[], false⟩ [] (by simp) (fun _ => rfl) hcap]
  rw [List.nil_append, hjoin]
  show (_, _, _) = _
  rw [consumedLen_send, List.take_length, List.drop_length]
  rw [wimod_hci_send_eq, List.cons_append, slipRun_cons, slipStep_end_drop]
  rw [slipRun_enc (wimod_hci_frame dst_id msg_id payload) [] []
    (by simpa using wimod_hci_frame_ne_nil dst_id msg_id payload)]
  simp

/-! ### Buffer bounds and non-emptiness of emitted packets -/

/-- The receive loop keeps rx_len at most WIMOD_HCI_PACKET_MAX and every
packet it hands on is a strict rx_buf snapshot of at most that size. -/
theorem receiveGo_bounds (fuel : Nat) : ∀ (buf : List Nat) (esc : Bool) (data : List Nat)
    (i len : Nat) (pkts : List (List Nat)),
    buf.length ≤ WIMOD_HCI_PACKET_MAX →
    (∀ p ∈ pkts, p.length ≤ WIMOD_HCI_PACKET_MAX) →
    (receiveGo fuel buf esc data i len pkts).rx.rx_buf.length ≤ WIMOD_HCI_PACKET_MAX ∧
      ∀ p ∈ (receiveGo fuel buf esc data i len pkts).packets,
        p.length ≤ WIMOD_HCI_PACKET_MAX := by
  induction fuel with
  | zero =>
    intro buf esc data i len pkts hbuf hpkts
    exact ⟨hbuf, hpkts⟩
  | succ f ih =>
    intro buf esc data i len pkts hbuf hpkts
    simp only [receiveGo]
    split
    case isTrue hg =>
      have hg2 : i < WIMOD_HCI_PACKET_MAX - buf.length :=
        lt_of_lt_of_le hg (Nat.min_le_right _ _)
      have htk : (data.take i).length ≤ i := by
        have := List.length_take i data
        omega
      split
      · refine ih _ _ _ _ _ _ ?_ hpkts
        split
        · simp only [List.length_append, List.length_singleton]
          omega
        · split
          · simp only [List.length_append, List.length_singleton]
            omega
          · omega
      · split
        · exact ih _ _ _ _ _ _ hbuf hpkts
        · split
          · refine ih _ _ _ _ _ _ (by simp) ?_
            intro p hp
            rcases List.mem_append.mp hp with h1 | h2
            · exact hpkts p h1
            · rcases List.mem_singleton.mp h2 with rfl
              simp only [List.length_append]
              omega
          · split
            · refine ih _ _ _ _ _ _ ?_ hpkts
              simp only [List.length_append]
              omega
            · refine ih _ _ _ _ _ _ ?_ hpkts
              simp only [List.length_append]
              omega
    case isFalse hg => exact ⟨hbuf, hpkts⟩

/-- The receive loop never hands an empty packet to the completion path:
an END with an empty accumulation buffer is a no-op. -/
theorem receiveGo_packets_ne_nil (fuel : Nat) : ∀ (buf : List Nat) (esc : Bool)
    (data : List Nat) (i len : Nat) (pkts : List (List Nat)),
    (∀ p ∈ pkts, p ≠ []) →
    ∀ p ∈ (receiveGo fuel buf esc data i len pkts).packets, p ≠ [] := by
  induction fuel with
  | zero =>
    intro buf esc data i len pkts hpkts
    exact hpkts
  | succ f ih =>
    intro buf esc data i len pkts hpkts
    simp only [receiveGo]
    split
    case isTrue hg =>
      split
      · exact ih _ _ _ _ _ _ hpkts
      · split
        · exact ih _ _ _ _ _ _ hpkts
        · split
          case isTrue hc =>
            refine ih _ _ _ _ _ _ ?_
            intro p hp
            rcases List.mem_append.mp hp with h1 | h2
            · exact hpkts p h1
            · rcases List.mem_singleton.mp h2 with rfl
              intro hcontra
              rw [hcontra] at hc
              simp at hc
          case isFalse hc =>
            split
            · exact ih _ _ _ _ _ _ hpkts
            · exact ih _ _ _ _ _ _ hpkts
    case isFalse hg => exact hpkts

/-- Per-call corollary of receiveGo_bounds. -/
theorem wimod_receive_buf_bounds (rx : WimodRx) (data : List Nat)
    (hbuf : rx.rx_buf.length ≤ WIMOD_HCI_PACKET_MAX) :
    (wimod_receive_buf rx data).rx.rx_buf.length ≤ WIMOD_HCI_PACKET_MAX ∧
      ∀ p ∈ (wimod_receive_buf rx data).packets, p.length ≤ WIMOD_HCI_PACKET_MAX :=
  receiveGo_bounds (data.length + 1) rx.rx_buf rx.rx_esc data 0 0 [] hbuf (by simp)

/-- Across any sequence of receive calls from a state within bounds, the
fill length and all emitted packets stay within WIMOD_HCI_PACKET_MAX. -/
theorem feedOnce_bounds (chunks : List (List Nat)) : ∀ rx : WimodRx,
    rx.rx_buf.length ≤ WIMOD_HCI_PACKET_MAX →
    (feedOnce rx chunks).1.rx_buf.length ≤ WIMOD_HCI_PACKET_MAX ∧
      ∀ p ∈ (feedOnce rx chunks).2, p.length ≤ WIMOD_HCI_PACKET_MAX := by
  induction chunks with
  | nil =>
    intro rx hbuf
    exact ⟨hbuf, by simp [feedOnce]⟩
  | cons c chunks ih =>
    intro rx hbuf
    have h1 := wimod_receive_buf_bounds rx c hbuf
    have h2 := ih (wimod_receive_buf rx c).rx h1.1
    show ((feedOnce _ chunks).1.rx_buf.length ≤ _) ∧ _
    refine ⟨h2.1, ?_⟩
    intro p hp
    rcases List.mem_append.mp hp with ha | hb
    · exact h1.2 p ha
    · exact h2.2 p hb

/-! ### Dispatcher registry and synchronizer facts -/

/-- Removing a freshly appended dispatcher entry restores the registry. -/
theorem remove_add_dispatcher (reg : List PacketDispatcher) (e : PacketDispatcher)
    (he : e ∉ reg) :
    wimod_hci_remove_dispatcher (wimod_hci_add_dispatcher reg e) e = reg := by
  unfold wimod_hci_remove_dispatcher wimod_hci_add_dispatcher
  rw [List.erase_append_right _ he]
  simp

/-- The dispatch scan of wimod_process_packet invokes the first registered
matching entry, with the packet data and length len - 2. -/
theorem process_packet_first_match (l1 l2 : List PacketDispatcher)
    (e : PacketDispatcher) (data : List Nat)
    (hlen : ¬ data.length < 4)
    (hcrc : crc_ccitt 0xffff data ^^^ 0xffff = 0x0f47)
    (hmatch : e.dst_id = data.getD 0 0 ∧ e.msg_id = data.getD 1 0)
    (hnomatch : ∀ e' ∈ l1, ¬(e'.dst_id = data.getD 0 0 ∧ e'.msg_id = data.getD 1 0)) :
    wimod_process_packet (l1 ++ e :: l2) data = some (e, data, data.length - 2) := by
  unfold wimod_process_packet
  rw [if_neg hlen, if_neg (fun hc => hc hcrc)]
  rw [List.find?_append]
  rw [List.find?_eq_none.mpr (by
    intro x hx
    simp only [decide_eq_true_eq]
    exact hnomatch x hx)]
  rw [List.find?_cons_of_pos _ (by
    simp only [decide_eq_true_eq]
    exact hmatch)]
  rfl

/-- With no matching entry registered, wimod_process_packet invokes nothing. -/
theorem process_packet_no_match (l : List PacketDispatcher) (data : List Nat)
    (hnomatch : ∀ e' ∈ l, ¬(e'.dst_id = data.getD 0 0 ∧ e'.msg_id = data.getD 1 0)) :
    wimod_process_packet l data = none := by
  unfold wimod_process_packet
  split
  · rfl
  · split
    · rfl
    · rw [List.find?_eq_none.mpr (by
        intro x hx
        simp only [decide_eq_true_eq]
        exact hnomatch x hx)]

/-! ### Claim theorems -/

/-- C1.  Round-trip: feeding the full wimod_hci_send output stream of any
frame (payload up to 300 bytes, escape-needing bytes included) into
wimod_receive_buf from the empty link receive state hands exactly the
original frame bytes — header, payload and the two checksum bytes — to the
frame-completion path, consumes the whole stream and ends in the empty
state. -/
theorem claim_roundtrip (dst_id msg_id : Nat) (payload : List Nat)
    (hlen : payload.length ≤ WIMOD_HCI_PAYLOAD_MAX) :
    wimod_receive_buf ⟨[], false⟩ (wimod_hci_send dst_id msg_id payload) =
      ⟨⟨[], false⟩, [wimod_hci_frame dst_id msg_id payload],
        (wimod_hci_send dst_id msg_id payload).length⟩ :=
  receive_send_eq dst_id msg_id payload hlen

theorem claim_roundtrip_witness :
    ([0xC0, 0xDB, 0x07] : List Nat).length ≤ WIMOD_HCI_PAYLOAD_MAX ∧
    wimod_receive_buf ⟨[], false⟩ (wimod_hci_send 1 2 [0xC0, 0xDB, 0x07]) =
      ⟨⟨[], false⟩, [wimod_hci_frame 1 2 [0xC0, 0xDB, 0x07]],
        (wimod_hci_send 1 2 [0xC0, 0xDB, 0x07]).length⟩ :=
  ⟨by decide, claim_roundtrip 1 2 [0xC0, 0xDB, 0x07] (by decide)⟩

/-- C2.  Checksum fixed residual: a frame carrying the little-endian
complemented CRC-CCITT always reduces, CRC-checked whole, to 0x0f47;
flipping any single bit of that byte sequence breaks the residual; and the
receive path accepts a packet only when the residual is 0x0f47 — it drops
any packet with another residual and dispatches a well-formed frame whose
first two bytes match a registered entry. -/
theorem claim_checksum_residual (dst_id msg_id : Nat) (payload : List Nat) :
    crc_ccitt 0xffff (wimod_hci_frame dst_id msg_id payload) ^^^ 0xffff = 0x0f47 ∧
    (∀ k j, k < (wimod_hci_frame dst_id msg_id payload).length → j < 8 →
      crc_ccitt 0xffff ((wimod_hci_frame dst_id msg_id payload).set k
        ((wimod_hci_frame dst_id msg_id payload).getD k 0 ^^^ 2 ^ j)) ^^^ 0xffff ≠ 0x0f47) ∧
    (∀ (l : List PacketDispatcher) (data : List Nat),
      crc_ccitt 0xffff data ^^^ 0xffff ≠ 0x0f47 → wimod_process_packet l data = none) ∧
    (∀ e : PacketDispatcher, e.dst_id = dst_id → e.msg_id = msg_id →
      wimod_process_packet [e] (wimod_hci_frame dst_id msg_id payload) =
        some (e, wimod_hci_frame dst_id msg_id payload,
          (wimod_hci_frame dst_id msg_id payload).length - 2)) := by
  have hFeq : wimod_hci_frame dst_id msg_id payload =
      (dst_id :: msg_id :: payload) ++
        [(crc_ccitt 0xffff (dst_id :: msg_id :: payload) ^^^ 0xffff) % 256,
          (crc_ccitt 0xffff (dst_id :: msg_id :: payload) ^^^ 0xffff) / 256] := by
    simp [wimod_hci_frame]
  have hres : crc_ccitt 0xffff (wimod_hci_frame dst_id msg_id payload) ^^^ 0xffff =
      0x0f47 := by
    rw [hFeq]
    exact wimod_residual (dst_id :: msg_id :: payload)
  refine ⟨hres, ?_, ?_, ?_⟩
  · intro k j hk hj
    exact wimod_residual_flip (wimod_hci_frame dst_id msg_id payload) k j hk hj hres
  · intro l data hbad
    unfold wimod_process_packet
    by_cases hl : data.length < 4
    · rw [if_pos hl]
    · rw [if_neg hl, if_pos hbad]
  · intro e hdst hmsg
    have h0 : (wimod_hci_frame dst_id msg_id payload).getD 0 0 = dst_id := by
      simp [wimod_hci_frame]
    have h1 : (wimod_hci_frame dst_id msg_id payload).getD 1 0 = msg_id := by
      simp [wimod_hci_frame]
    have hlen4 : ¬ (wimod_hci_frame dst_id msg_id payload).length < 4 := by
      rw [wimod_hci_frame_length]
      omega
    have := process_packet_first_match [] [] e
      (wimod_hci_frame dst_id msg_id payload) hlen4 hres
      (by rw [h0, h1]; exact ⟨hdst, hmsg⟩) (by simp)
    simpa using this

theorem claim_checksum_residual_witness :
    crc_ccitt 0xffff (wimod_hci_frame 1 2 [0x42]) ^^^ 0xffff = 0x0f47 ∧
    crc_ccitt 0xffff ((wimod_hci_frame 1 2 [0x42]).set 2
      ((wimod_hci_frame 1 2 [0x42]).getD 2 0 ^^^ 2 ^ 5)) ^^^ 0xffff ≠ 0x0f47 ∧
    wimod_process_packet [⟨1, 2, 0⟩] [1, 2, 3, 4, 5] = none ∧
    wimod_process_packet [⟨1, 2, 0⟩] (wimod_hci_frame 1 2 [0x42]) =
      some (⟨1, 2, 0⟩, wimod_hci_frame 1 2 [0x42], (wimod_hci_frame 1 2 [0x42]).length - 2) :=
  ⟨(claim_checksum_residual 1 2 [0x42]).1,
    (claim_checksum_residual 1 2 [0x42]).2.1 2 5 (by decide) (by decide),
    (claim_checksum_residual 1 2 [0x42]).2.2.1 [⟨1, 2, 0⟩] [1, 2, 3, 4, 5] (by decide),
    (claim_checksum_residual 1 2 [0x42]).2.2.2 ⟨1, 2, 0⟩ rfl rfl⟩

/-- C3 counterexample.  Passing each chunk exactly once and ignoring the
consumed count loses the unconsumed tail byte of the first chunk: the
split [C0 01][01 16 07 C0] of the valid encoded ping frame decodes to a
different (truncated) packet than feeding the stream whole. -/
theorem claim_chunk_once_cex :
    ([[0xC0, 0x01], [0x01, 0x16, 0x07, 0xC0]] : List (List Nat)).flatten =
      wimod_hci_send 1 1 [] ∧
    (feedOnce ⟨[], false⟩ [[0xC0, 0x01], [0x01, 0x16, 0x07, 0xC0]]).2 ≠
      (wimod_receive_buf ⟨[], false⟩ (wimod_hci_send 1 1 [])).packets := by
  decide

/-- C3 (amended).  Chunk-boundary independence holds once each call's
unconsumed suffix (bytes past the returned consumed count) is re-presented
prepended to the next chunk, exactly as the serdev receive_buf contract
requires: any partition of a fully valid encoded frame then decodes to the
same single frame as feeding the stream whole, with no data loss and no
duplicate emission, ending in the empty state with nothing pending. -/
theorem claim_chunked_roundtrip (dst_id msg_id : Nat) (payload : List Nat)
    (chunks : List (List Nat))
    (hlen : payload.length ≤ WIMOD_HCI_PAYLOAD_MAX)
    (hjoin : chunks.flatten = wimod_hci_send dst_id msg_id payload) :
    feedChunks ⟨[], false⟩ [] chunks =
      (⟨[], false⟩, [], [wimod_hci_frame dst_id msg_id payload]) ∧
    (wimod_receive_buf ⟨[], false⟩ (wimod_hci_send dst_id msg_id payload)).packets =
      [wimod_hci_frame dst_id msg_id payload] :=
  ⟨feedChunks_send dst_id msg_id payload chunks hlen hjoin,
    by rw [receive_send_eq dst_id msg_id payload hlen]⟩

theorem claim_chunked_roundtrip_witness :
    ([] : List Nat).length ≤ WIMOD_HCI_PAYLOAD_MAX ∧
    ([[0xC0, 0x01], [0x01], [0x16, 0x07, 0xC0]] : List (List Nat)).flatten =
      wimod_hci_send 1 1 [] ∧
    feedChunks ⟨[], false⟩ [] [[0xC0, 0x01], [0x01], [0x16, 0x07, 0xC0]] =
      (⟨[], false⟩, [], [wimod_hci_frame 1 1 []]) :=
  ⟨by decide, by decide,
    (claim_chunked_roundtrip 1 1 [] [[0xC0, 0x01], [0x01], [0x16, 0x07, 0xC0]]
      (by decide) (by decide)).1⟩

/-- C4.  At-most-once completion: one dispatch to a completion waiter
marks it done, a second dispatch — for example for a byte-identical
duplicate frame — is a no-op leaving the waiter (payload slot and
payload_len included) exactly as the first dispatch left it, and a
dispatch to an already-completed waiter changes nothing at all. -/
theorem claim_at_most_once_completion (st : PacketCompletion)
    (d1 d2 : List Nat) (l1 l2 : Nat) :
    (wimod_hci_packet_dispatch_completion st d1 l1).comp_done = true ∧
    wimod_hci_packet_dispatch_completion
        (wimod_hci_packet_dispatch_completion st d1 l1) d2 l2 =
      wimod_hci_packet_dispatch_completion st d1 l1 ∧
    (st.comp_done = true → wimod_hci_packet_dispatch_completion st d1 l1 = st) := by
  unfold wimod_hci_packet_dispatch_completion
  by_cases h : st.comp_done
  · simp [h]
  · simp [h]

theorem claim_at_most_once_completion_witness :
    (⟨true, some [0], 1⟩ : PacketCompletion).comp_done = true ∧
    wimod_hci_packet_dispatch_completion ⟨true, some [0], 1⟩ [1, 2, 0, 9, 9] 3 =
      ⟨true, some [0], 1⟩ :=
  ⟨rfl, (claim_at_most_once_completion ⟨true, some [0], 1⟩ [1, 2, 0, 9, 9]
    [1, 2, 0, 9, 9] 3 3).2.2 rfl⟩

/-- C5.  First-match dispatch: for a packet that passes the length and
checksum checks, the registry is scanned in registration order and exactly
the first-registered matching entry is invoked (so with duplicate keys the
later entry is never invoked for that packet), and with no matching entry
nothing is invoked and the packet is dropped. -/
theorem claim_first_match_dispatch (l1 l2 : List PacketDispatcher)
    (e : PacketDispatcher) (data : List Nat)
    (hlen : ¬ data.length < 4)
    (hcrc : crc_ccitt 0xffff data ^^^ 0xffff = 0x0f47)
    (hmatch : e.dst_id = data.getD 0 0 ∧ e.msg_id = data.getD 1 0)
    (hnomatch : ∀ e' ∈ l1, ¬(e'.dst_id = data.getD 0 0 ∧ e'.msg_id = data.getD 1 0)) :
    wimod_process_packet (l1 ++ e :: l2) data = some (e, data, data.length - 2) ∧
    ∀ l : List PacketDispatcher,
      (∀ e' ∈ l, ¬(e'.dst_id = data.getD 0 0 ∧ e'.msg_id = data.getD 1 0)) →
      wimod_process_packet l data = none :=
  ⟨process_packet_first_match l1 l2 e data hlen hcrc hmatch hnomatch,
    fun l hl => process_packet_no_match l data hl⟩

theorem claim_first_match_dispatch_witness :
    wimod_process_packet [⟨9, 9, 0⟩, ⟨1, 2, 1⟩, ⟨1, 2, 2⟩] (wimod_hci_frame 1 2 []) =
      some (⟨1, 2, 1⟩, wimod_hci_frame 1 2 [], (wimod_hci_frame 1 2 []).length - 2) ∧
    wimod_process_packet [⟨9, 9, 0⟩] (wimod_hci_frame 1 2 []) = none := by
  have h := claim_first_match_dispatch [⟨9, 9, 0⟩] [⟨1, 2, 2⟩] ⟨1, 2, 1⟩
    (wimod_hci_frame 1 2 []) (by decide)
    (by decide) (by decide) (by decide)
  exact ⟨h.1, h.2 [⟨9, 9, 0⟩] (by decide)⟩

/-- C6 counterexample.  The claim says the timeout return -ETIMEDOUT is
distinct from any write error, but the write error is whatever the serdev
write returned, propagated verbatim — and a serdev write can itself fail
with -ETIMEDOUT.  Concretely: a call whose frame write fails with
-ETIMEDOUT returns -ETIMEDOUT on the immediate write-failure path, the
very value the deadline path returns, so the two outcomes are not
distinguishable by return value. -/
theorem claim_sync_cleanup_cex :
    (-ETIMEDOUT : Int) ≠ 0 ∧
    (wimod_hci_ping [] ⟨1, 2, 5⟩ (-ETIMEDOUT) (some [0])).1 = -ETIMEDOUT ∧
    (wimod_hci_get_device_info [] ⟨1, 3, 5⟩ (-ETIMEDOUT) (some [0]) true).1 =
      -ETIMEDOUT := by
  refine ⟨by decide, ?_, ?_⟩
  · unfold wimod_hci_ping
    rw [if_pos (by decide : (-ETIMEDOUT : Int) ≠ 0)]
  · unfold wimod_hci_get_device_info
    rw [if_pos (by decide : (-ETIMEDOUT : Int) ≠ 0)]

/-- C6 (amended).  Synchronizer cleanup and error distinctness, for both
the ping and the get-device-info request: on every return path the
waiter's dispatch entry has been removed and the registry is as before
the call; a write failure returns the write error at once, without
consulting the response (no waiting); an elapsed deadline returns
-ETIMEDOUT; and -ETIMEDOUT is distinct from the validation error -EINVAL
and from success — but not from every possible write error, since the
write error is propagated verbatim and may itself be -ETIMEDOUT. -/
theorem claim_sync_cleanup (reg : List PacketDispatcher) (e : PacketDispatcher)
    (send_ret : Int) (response : Option (List Nat)) (has_buf : Bool)
    (he : e ∉ reg) :
    ((wimod_hci_ping reg e send_ret response).2 = reg ∧
      (wimod_hci_get_device_info reg e send_ret response has_buf).2.1 = reg) ∧
    (send_ret ≠ 0 →
      (wimod_hci_ping reg e send_ret response).1 = send_ret ∧
      (wimod_hci_get_device_info reg e send_ret response has_buf).1 = send_ret ∧
      (∀ r2, wimod_hci_ping reg e send_ret r2 = wimod_hci_ping reg e send_ret response) ∧
      (∀ r2, wimod_hci_get_device_info reg e send_ret r2 has_buf =
        wimod_hci_get_device_info reg e send_ret response has_buf)) ∧
    (send_ret = 0 → response = none →
      (wimod_hci_ping reg e send_ret response).1 = -ETIMEDOUT ∧
      (wimod_hci_get_device_info reg e send_ret response has_buf).1 = -ETIMEDOUT) ∧
    ((-ETIMEDOUT : Int) ≠ -EINVAL ∧ (-ETIMEDOUT : Int) ≠ 0) := by
  have hrm := remove_add_dispatcher reg e he
  refine ⟨⟨?_, ?_⟩, ?_, ?_, by decide⟩
  · unfold wimod_hci_ping
    split
    · exact hrm
    · split
      · exact hrm
      · split
        · exact hrm
        · exact hrm
  · unfold wimod_hci_get_device_info
    split
    · exact hrm
    · split
      · exact hrm
      · split
        · exact hrm
        · split
          · exact hrm
          · split
            · exact hrm
            · exact hrm
  · intro hs
    refine ⟨?_, ?_, ?_, ?_⟩
    · unfold wimod_hci_ping
      rw [if_pos hs]
    · unfold wimod_hci_get_device_info
      rw [if_pos hs]
    · intro r2
      unfold wimod_hci_ping
      rw [if_pos hs, if_pos hs]
    · intro r2
      unfold wimod_hci_get_device_info
      rw [if_pos hs, if_pos hs]
  · intro hs hr
    subst hs
    subst hr
    constructor
    · unfold wimod_hci_ping
      rw [if_neg (show ¬((0 : Int) ≠ 0) from by simp)]
    · unfold wimod_hci_get_device_info
      rw [if_neg (show ¬((0 : Int) ≠ 0) from by simp)]

theorem claim_sync_cleanup_witness :
    (⟨1, 2, 5⟩ : PacketDispatcher) ∉ ([⟨1, 2, 7⟩] : List PacketDispatcher) ∧
    (wimod_hci_ping [⟨1, 2, 7⟩] ⟨1, 2, 5⟩ 0 none).2 = [⟨1, 2, 7⟩] ∧
    (wimod_hci_ping [⟨1, 2, 7⟩] ⟨1, 2, 5⟩ 0 none).1 = -ETIMEDOUT ∧
    (wimod_hci_ping [⟨1, 2, 7⟩] ⟨1, 2, 5⟩ (-5) (some [0])).1 = -5 := by
  have h := claim_sync_cleanup [⟨1, 2, 7⟩] ⟨1, 2, 5⟩ 0 none true (by decide)
  have h2 := claim_sync_cleanup [⟨1, 2, 7⟩] ⟨1, 2, 5⟩ (-5) (some [0]) true (by decide)
  exact ⟨by decide, h.1.1, (h.2.2.1 rfl rfl).1, (h2.2.1 (by decide)).1⟩

/-- C7.  Invalid packets are never dispatched and are discarded silently:
the receive path never hands an empty byte sequence (an END immediately
after an END) to the frame-completion path, and wimod_process_packet
invokes no registered handler for a packet shorter than 4 bytes or with a
CRC residual other than 0x0f47 — it just returns, leaving the registry
(an input it never modifies) untouched and surfacing no error to anyone. -/
theorem claim_invalid_discarded (st : WimodRx) (chunk : List Nat)
    (l : List PacketDispatcher) (data : List Nat) :
    (∀ q ∈ (wimod_receive_buf st chunk).packets, q ≠ []) ∧
    (data.length < 4 → wimod_process_packet l data = none) ∧
    (crc_ccitt 0xffff data ^^^ 0xffff ≠ 0x0f47 → wimod_process_packet l data = none) := by
  refine ⟨?_, ?_, ?_⟩
  · exact receiveGo_packets_ne_nil (chunk.length + 1) st.rx_buf st.rx_esc chunk 0 0 []
      (by simp)
  · intro h
    unfold wimod_process_packet
    rw [if_pos h]
  · intro h
    unfold wimod_process_packet
    by_cases hl : data.length < 4
    · rw [if_pos hl]
    · rw [if_neg hl, if_pos h]

theorem claim_invalid_discarded_witness :
    ([1] : List Nat) ≠ [] ∧
    wimod_process_packet [⟨1, 2, 0⟩] [1, 2, 3] = none ∧
    wimod_process_packet [⟨1, 2, 0⟩] [1, 2, 3, 4, 5] = none := by
  have h1 := claim_invalid_discarded ⟨[], false⟩ [1, 0xC0] [⟨1, 2, 0⟩] [1, 2, 3]
  have h2 := claim_invalid_discarded ⟨[], false⟩ [1, 0xC0] [⟨1, 2, 0⟩] [1, 2, 3, 4, 5]
  exact ⟨h1.1 [1] (by decide), h1.2.1 (by decide), h2.2.2 (by decide)⟩

/-- C8.  Payload stripping: a valid packet of total length L ≥ 4 that
matches a pending (not yet completed) waiter is dispatched with length
L - 2, and the waiter completes with payload_len = L - 4 and its payload
slot holding exactly the packet bytes at positions 2 .. L-3 — the frame
with the 2-byte header and the 2 trailing checksum bytes stripped. -/
theorem claim_payload_stripping (l1 l2 : List PacketDispatcher)
    (e : PacketDispatcher) (data : List Nat) (st : PacketCompletion)
    (hlen : ¬ data.length < 4)
    (hcrc : crc_ccitt 0xffff data ^^^ 0xffff = 0x0f47)
    (hmatch : e.dst_id = data.getD 0 0 ∧ e.msg_id = data.getD 1 0)
    (hnomatch : ∀ e' ∈ l1, ¬(e'.dst_id = data.getD 0 0 ∧ e'.msg_id = data.getD 1 0))
    (hdone : st.comp_done = false) :
    wimod_process_packet (l1 ++ e :: l2) data = some (e, data, data.length - 2) ∧
    wimod_hci_packet_dispatch_completion st data (data.length - 2) =
      ⟨true, some ((data.drop 2).take (data.length - 4)), data.length - 4⟩ := by
  refine ⟨process_packet_first_match l1 l2 e data hlen hcrc hmatch hnomatch, ?_⟩
  unfold wimod_hci_packet_dispatch_completion
  rw [if_neg (by simp [hdone])]
  have h4 : data.length - 2 - 2 = data.length - 4 := by omega
  rw [h4]

theorem claim_payload_stripping_witness :
    wimod_process_packet [⟨1, 2, 0⟩] (wimod_hci_frame 1 2 [0x11, 0x22]) =
      some (⟨1, 2, 0⟩, wimod_hci_frame 1 2 [0x11, 0x22],
        (wimod_hci_frame 1 2 [0x11, 0x22]).length - 2) ∧
    wimod_hci_packet_dispatch_completion ⟨false, none, 0⟩
        (wimod_hci_frame 1 2 [0x11, 0x22]) ((wimod_hci_frame 1 2 [0x11, 0x22]).length - 2) =
      ⟨true, some (((wimod_hci_frame 1 2 [0x11, 0x22]).drop 2).take
        ((wimod_hci_frame 1 2 [0x11, 0x22]).length - 4)),
        (wimod_hci_frame 1 2 [0x11, 0x22]).length - 4⟩ := by
  have h := claim_payload_stripping [] [] ⟨1, 2, 0⟩ (wimod_hci_frame 1 2 [0x11, 0x22])
    ⟨false, none, 0⟩ (by decide) (by decide) (by decide) (by simp) rfl
  exact ⟨by simpa using h.1, h.2⟩

theorem devmgmt_status_zero {x : Nat} (h : x = 0) : wimod_hci_devmgmt_status x = 0 := by
  unfold wimod_hci_devmgmt_status
  rw [if_pos h]

theorem devmgmt_status_nonzero {x : Nat} (h : x ≠ 0) :
    wimod_hci_devmgmt_status x = -EINVAL := by
  unfold wimod_hci_devmgmt_status
  rw [if_neg h]

/-- C9.  Get-device-info validation: with the frame written successfully
and a response payload delivered, the call returns 0 exactly when the
payload has length ≥ 10 and a zero status byte, in which case a non-null
caller buffer receives exactly payload bytes 1..9; any failing payload
(empty, non-zero status, or length 1..9) yields -EINVAL with nothing
copied, and -EINVAL is distinct from the timeout error -ETIMEDOUT. -/
theorem claim_get_device_info_validation (reg : List PacketDispatcher)
    (e : PacketDispatcher) (payload : List Nat) (has_buf : Bool) :
    ((wimod_hci_get_device_info reg e 0 (some payload) has_buf).1 = 0 ↔
      10 ≤ payload.length ∧ payload.getD 0 0 = 0) ∧
    ((wimod_hci_get_device_info reg e 0 (some payload) has_buf).1 = 0 → has_buf = true →
      (wimod_hci_get_device_info reg e 0 (some payload) has_buf).2.2 =
        some ((payload.drop 1).take 9)) ∧
    ((wimod_hci_get_device_info reg e 0 (some payload) has_buf).1 ≠ 0 →
      (wimod_hci_get_device_info reg e 0 (some payload) has_buf).1 = -EINVAL ∧
      (wimod_hci_get_device_info reg e 0 (some payload) has_buf).2.2 = none) ∧
    ((-EINVAL : Int) ≠ -ETIMEDOUT) := by
  have hval : wimod_hci_get_device_info reg e 0 (some payload) has_buf =
      (if payload.length < 1 then
        (-EINVAL, wimod_hci_remove_dispatcher (wimod_hci_add_dispatcher reg e) e, none)
      else if wimod_hci_devmgmt_status (payload.getD 0 0) ≠ 0 then
        (wimod_hci_devmgmt_status (payload.getD 0 0),
          wimod_hci_remove_dispatcher (wimod_hci_add_dispatcher reg e) e, none)
      else if payload.length < 10 then
        (-EINVAL, wimod_hci_remove_dispatcher (wimod_hci_add_dispatcher reg e) e, none)
      else
        (0, wimod_hci_remove_dispatcher (wimod_hci_add_dispatcher reg e) e,
          if has_buf then some ((payload.drop 1).take (min (payload.length - 1) 9))
          else none)) := by
    unfold wimod_hci_get_device_info
    rw [if_neg (show ¬((0 : Int) ≠ 0) from by simp)]
  rw [hval]
  have heinval : ¬((-EINVAL : Int) = 0) := by decide
  by_cases h1 : payload.length < 1
  · rw [if_pos h1]
    refine ⟨⟨fun hc => absurd hc heinval, fun hc => absurd hc.1 (by omega)⟩,
      fun hc => absurd hc heinval, fun _ => ⟨rfl, rfl⟩, by decide⟩
  · rw [if_neg h1]
    by_cases hst : payload.getD 0 0 = 0
    · rw [if_neg (show ¬(wimod_hci_devmgmt_status (payload.getD 0 0) ≠ 0) from by
        rw [devmgmt_status_zero hst]
        simp)]
      by_cases h10 : payload.length < 10
      · rw [if_pos h10]
        refine ⟨⟨fun hc => absurd hc heinval, fun hc => absurd hc.1 (by omega)⟩,
          fun hc => absurd hc heinval, fun _ => ⟨rfl, rfl⟩, by decide⟩
      · rw [if_neg h10]
        refine ⟨⟨fun _ => ⟨by omega, hst⟩, fun _ => rfl⟩, ?_, fun hc => absurd rfl hc,
          by decide⟩
        intro _ hb
        rw [hb]
        rw [if_pos rfl]
        rw [Nat.min_eq_right (by omega)]
    · rw [if_pos (show wimod_hci_devmgmt_status (payload.getD 0 0) ≠ 0 from by
        rw [devmgmt_status_nonzero hst]
        decide)]
      rw [devmgmt_status_nonzero hst]
      refine ⟨⟨fun hc => absurd hc heinval, fun hc => absurd hc.2 hst⟩,
        fun hc => absurd hc heinval, fun _ => ⟨rfl, rfl⟩, by decide⟩

theorem claim_get_device_info_validation_witness :
    (wimod_hci_get_device_info [] ⟨1, 4, 0⟩ 0
      (some [0, 1, 2, 3, 4, 5, 6, 7, 8, 9]) true).1 = 0 ∧
    (wimod_hci_get_device_info [] ⟨1, 4, 0⟩ 0
      (some [0, 1, 2, 3, 4, 5, 6, 7, 8, 9]) true).2.2 = some [1, 2, 3, 4, 5, 6, 7, 8, 9] ∧
    (wimod_hci_get_device_info [] ⟨1, 4, 0⟩ 0 (some [1]) true).1 = -EINVAL := by
  have h := claim_get_device_info_validation [] ⟨1, 4, 0⟩ [0, 1, 2, 3, 4, 5, 6, 7, 8, 9] true
  have h2 := claim_get_device_info_validation [] ⟨1, 4, 0⟩ [1] true
  refine ⟨h.1.mpr (by decide), ?_, (h2.2.2.1 (by decide)).1⟩
  have := h.2.1 (h.1.mpr (by decide)) rfl
  simpa using this

theorem flatten_replicate_length (k : Nat) :
    (List.flatten (List.replicate k [1, 192])).length = 2 * k := by
  induction k with
  | zero => simp
  | succ k ih =>
    rw [List.replicate_succ, List.flatten_cons]
    simp only [List.length_append, ih, List.length_cons, List.length_nil]
    omega

theorem feedOnce_repl : ∀ (k : Nat) (buf : List Nat), buf.length + 2 * k + 1 ≤ 610 →
    feedOnce ⟨buf, false⟩ (List.replicate k [1, 219, 220]) =
      (⟨buf ++ List.flatten (List.replicate k [1, 192]), false⟩, []) := by
  intro k
  induction k with
  | zero =>
    intro buf h
    simp [feedOnce]
  | succ k ih =>
    intro buf h
    rw [List.replicate_succ]
    show ((feedOnce (wimod_receive_buf ⟨buf, false⟩ [1, 219, 220]).rx
        (List.replicate k [1, 219, 220])).1, _ ++ _) = _
    have hcap : (WimodRx.mk buf false).rx_buf.length +
        ([1, 219, 220] : List Nat).length ≤ WIMOD_HCI_PACKET_MAX := by
      show buf.length + 3 ≤ 610
      omega
    have hrecv := wimod_receive_buf_eq ⟨buf, false⟩ [1, 219, 220] hcap
    rw [show (WimodRx.mk buf false).rx_esc = false from rfl,
      show consumedLen false [1, 219, 220] = 3 from by decide,
      show ([1, 219, 220] : List Nat).take 3 = [1, 219, 220] from rfl] at hrecv
    rw [show slipRun ((⟨buf, false⟩ : WimodRx), ([] : List (List Nat))) [1, 219, 220] =
        (⟨buf ++ [1] ++ [192], false⟩, []) from by
      rw [slipRun_cons, slipStep_lit buf [] 1 (by decide) (by decide)]
      rw [slipRun_cons, show (219 : Nat) = SLIP_ESC from rfl, slipStep_escb]
      rw [slipRun_cons, show (220 : Nat) = SLIP_ESC_END from rfl, slipStep_esc_end]
      rfl] at hrecv
    rw [hrecv]
    rw [ih (buf ++ [1] ++ [192]) (by
      simp only [List.length_append, List.length_cons, List.length_nil]
      omega)]
    rw [show List.replicate (k + 1) ([1, 192] : List Nat) =
        [1, 192] :: List.replicate k [1, 192] from rfl, List.flatten_cons]
    simp [List.append_assoc]

theorem feedOnce_single (st : WimodRx) (c : List Nat) :
    feedOnce st [c] =
      ((wimod_receive_buf st c).rx, (wimod_receive_buf st c).packets ++ []) := rfl

/-- C10 counterexample.  The claim's capacity figure 608 is wrong: a
sequence of receive calls from the empty state drives rx_len to 609 bytes,
above 608 (the true capacity is WIMOD_HCI_PACKET_MAX =
1 + (2 + 300 + 2) * 2 + 1 = 610). -/
theorem claim_rx_bound_cex :
    608 < (feedOnce ⟨[], false⟩
      (List.replicate 304 [1, 219, 220] ++ [[219, 220]])).1.rx_buf.length := by
  obtain ⟨B, hB⟩ : ∃ B : List Nat, List.flatten (List.replicate 304 [1, 192]) = B :=
    ⟨_, rfl⟩
  have hlen : B.length = 608 := by rw [← hB, flatten_replicate_length]
  have h304 : feedOnce ⟨[], false⟩ (List.replicate 304 [1, 219, 220]) =
      (⟨B, false⟩, []) := by
    rw [feedOnce_repl 304 [] (by decide), List.nil_append, hB]
  have happ : ∀ (a b : List (List Nat)) (st : WimodRx),
      (feedOnce st (a ++ b)).1 = (feedOnce (feedOnce st a).1 b).1 := by
    intro a
    induction a with
    | nil => intro b st; rfl
    | cons c a iha =>
      intro b st
      rw [List.cons_append]
      show (feedOnce (wimod_receive_buf st c).rx (a ++ b)).1 = _
      rw [iha b (wimod_receive_buf st c).rx]
      rfl
  rw [happ, h304]
  show 608 < (feedOnce (⟨B, false⟩ : WimodRx) [[219, 220]]).1.rx_buf.length
  rw [feedOnce_single]
  show 608 < (wimod_receive_buf ⟨B, false⟩ [219, 220]).rx.rx_buf.length
  have hcap : (WimodRx.mk B false).rx_buf.length +
      ([219, 220] : List Nat).length ≤ WIMOD_HCI_PACKET_MAX := by
    show B.length + 2 ≤ 610
    omega
  have hrecv := wimod_receive_buf_eq ⟨B, false⟩ [219, 220] hcap
  rw [show (WimodRx.mk B false).rx_esc = false from rfl,
    show consumedLen false [219, 220] = 2 from by decide,
    show ([219, 220] : List Nat).take 2 = [219, 220] from rfl] at hrecv
  rw [show slipRun ((⟨B, false⟩ : WimodRx), ([] : List (List Nat))) [219, 220] =
      (⟨B ++ [192], false⟩, []) from by
    rw [slipRun_cons, show (219 : Nat) = SLIP_ESC from rfl, slipStep_escb]
    rw [slipRun_cons, show (220 : Nat) = SLIP_ESC_END from rfl, slipStep_esc_end]
    rfl] at hrecv
  rw [hrecv]
  show 608 < (B ++ [192]).length
  rw [List.length_append, hlen, show ([192] : List Nat).length = 1 from rfl]
  omega

/-- C10 (amended).  Receive buffer bounds with the correct capacity: for
every sequence of receive calls starting from the empty link receive
state, rx_len never exceeds WIMOD_HCI_PACKET_MAX = 610 bytes (not 608),
and every byte laid down in the accumulation buffer sits at an index
strictly below 610 — each such byte belongs to a handed-on packet or to
the final buffer, both of length at most 610. -/
theorem claim_rx_bound (chunks : List (List Nat)) :
    WIMOD_HCI_PACKET_MAX = 610 ∧
    (feedOnce ⟨[], false⟩ chunks).1.rx_buf.length ≤ WIMOD_HCI_PACKET_MAX ∧
    ∀ p ∈ (feedOnce ⟨[], false⟩ chunks).2, p.length ≤ WIMOD_HCI_PACKET_MAX :=
  ⟨rfl, (feedOnce_bounds chunks ⟨[], false⟩ (by simp)).1,
    (feedOnce_bounds chunks ⟨[], false⟩ (by simp)).2⟩

theorem claim_rx_bound_witness :
    (feedOnce ⟨[], false⟩ [[0x01, 0xC0]]).1.rx_buf.length ≤ WIMOD_HCI_PACKET_MAX ∧
    ([0x01] : List Nat).length ≤ WIMOD_HCI_PACKET_MAX :=
  ⟨(claim_rx_bound [[0x01, 0xC0]]).2.1,
    (claim_rx_bound [[0x01, 0xC0]]).2.2 [0x01] (by decide)⟩


end Wimod
